import Mathlib

/-!
Verification of the stream-normalization core of langgraph-stream-parser.

The development shallowly embeds the Python sources
(parser.py, handlers/updates.py, handlers/messages.py,
extractors/messages.py, extractors/interrupts.py, resume.py)
over a model of duck-typed Python values.  Modeling choices:

- Dict keys and object attribute names are strings (LangGraph node names,
  state keys and attribute names are strings).
- Object equality is structural; Python default object identity equality
  is never exercised by the theorems (all compared keys are strings).
- Wall-clock data (timestamps, the numeric value of duration_ms) is not
  modeled; for duration_ms only presence (Some vs None) is kept.
- The async variants (aparse, _aparse_multi_mode, _apeek_and_detect) are
  line-for-line the same algorithm as the synchronous ones and are
  covered by the single embedding.
-/

/-- Python exceptions, as far as the embedded code can raise or observe
them.  The payload is the message text used by str(e). -/
inductive PyExc where
  | typeError (msg : String)
  | valueError (msg : String)
  | other (name : String) (msg : String)
deriving Repr

/-- The message text str(e) of an exception. -/
def pyExcStr : PyExc → String
  | .typeError m => m
  | .valueError m => m
  | .other _ m => m

/-- Duck-typed Python values: None, bool, int, str, list, tuple,
string-keyed dict, and objects with a class name and attributes. -/
inductive Val where
  | vnone
  | vbool (b : Bool)
  | vint (n : Int)
  | vstr (s : String)
  | vlist (xs : List Val)
  | vtuple (xs : List Val)
  | vdict (entries : List (String × Val))
  | vobj (cls : String) (attrs : List (String × Val))
deriving Repr

namespace Val

/-- Python truthiness: empty containers, empty strings, 0, False and None
are falsy; plain objects are truthy. -/
def pyTruthy : Val → Bool
  | .vnone => false
  | .vbool b => b
  | .vint n => n != 0
  | .vstr s => s != ""
  | .vlist xs => !xs.isEmpty
  | .vtuple xs => !xs.isEmpty
  | .vdict es => !es.isEmpty
  | .vobj _ _ => true

/-- isinstance(v, dict). -/
def isDict : Val → Bool
  | .vdict _ => true
  | _ => false

/-- isinstance(v, list). -/
def isList : Val → Bool
  | .vlist _ => true
  | _ => false

/-- isinstance(v, str). -/
def isStr : Val → Bool
  | .vstr _ => true
  | _ => false

/-- v is None. -/
def isNone : Val → Bool
  | .vnone => true
  | _ => false

end Val

/-- First-match lookup in a string-keyed association list (Python dicts
have unique keys; the embedding reads the first binding). -/
def lookupStr (entries : List (String × Val)) (k : String) : Option Val :=
  match entries with
  | [] => none
  | (k1, v) :: rest => if k1 = k then some v else lookupStr rest k

/-- dict.get(k, default). -/
def dictGetD (entries : List (String × Val)) (k : String) (d : Val) : Val :=
  (lookupStr entries k).getD d

/-- k in dict. -/
def dictHasKey (entries : List (String × Val)) (k : String) : Bool :=
  (lookupStr entries k).isSome

/-- getattr(v, name, default): only objects carry attributes relevant to
the embedded code. -/
def getattrD (v : Val) (name : String) (d : Val) : Val :=
  match v with
  | .vobj _ attrs => dictGetD attrs name d
  | _ => d

/-- hasattr(v, name). -/
def hasattr (v : Val) (name : String) : Bool :=
  match v with
  | .vobj _ attrs => dictHasKey attrs name
  | _ => false

/-- v == s for a string literal s: in Python only a str can equal a str. -/
def valEqStr (v : Val) (s : String) : Bool :=
  match v with
  | .vstr t => t == s
  | _ => false

/-- Read a value as a Python integer where int arithmetic accepts it
(bools are ints in Python). -/
def toIntQ : Val → Option Int
  | .vint n => some n
  | .vbool b => some (if b then 1 else 0)
  | _ => none

mutual

/-- Hashability: dicts and lists are unhashable; a tuple is hashable iff
all its elements are. -/
def pyHashable : Val → Bool
  | .vdict _ => false
  | .vlist _ => false
  | .vtuple xs => pyHashableList xs
  | _ => true

def pyHashableList : List Val → Bool
  | [] => true
  | x :: xs => pyHashable x && pyHashableList xs

end

mutual

/-- Python ==.  Numeric cross-equality between bool and int is honored.
Dict and object comparison is structural (see the module comment). -/
def pyEq : Val → Val → Bool
  | .vnone, .vnone => true
  | .vstr a, .vstr b => a == b
  | .vint a, .vint b => a == b
  | .vint a, .vbool b => a == (if b then (1 : Int) else 0)
  | .vbool a, .vint b => (if a then (1 : Int) else 0) == b
  | .vbool a, .vbool b => a == b
  | .vlist a, .vlist b => pyEqList a b
  | .vtuple a, .vtuple b => pyEqList a b
  | .vdict a, .vdict b => pyEqEntries a b
  | .vobj c1 a, .vobj c2 b => c1 == c2 && pyEqEntries a b
  | _, _ => false

def pyEqList : List Val → List Val → Bool
  | [], [] => true
  | x :: xs, y :: ys => pyEq x y && pyEqList xs ys
  | _, _ => false

def pyEqEntries : List (String × Val) → List (String × Val) → Bool
  | [], [] => true
  | (k1, v1) :: xs, (k2, v2) :: ys => k1 == k2 && pyEq v1 v2 && pyEqEntries xs ys
  | _, _ => false

end

/-- Python whitespace characters recognized by str.strip (ASCII range;
unicode spaces are outside the model). -/
def isPySpace (c : Char) : Bool :=
  c = ' ' || c = '\t' || c = '\n' || c = '\r' ||
  c = Char.ofNat 11 || c = Char.ofNat 12

/-- str.strip() with no arguments. -/
def pyStrip (s : String) : String :=
  String.mk (((s.toList.dropWhile isPySpace).reverse.dropWhile isPySpace).reverse)

/-- str.lower() (ASCII case mapping). -/
def pyLower (s : String) : String :=
  String.mk (s.toList.map Char.toLower)

/-- An opening brace as a string. -/
def lbr : String := "\x7b"

/-- A closing brace as a string. -/
def rbr : String := "\x7d"

/-- A single-quote character. -/
def quoteChar : Char := Char.ofNat 39

/-- A double-quote character. -/
def dquoteChar : Char := Char.ofNat 34

/-- Escape one character for Python string repr given the active quote. -/
def reprEscChar (q : Char) (c : Char) : String :=
  if c = '\\' then "\\\\"
  else if c = q then "\\" ++ String.singleton q
  else if c = '\n' then "\\n"
  else if c = '\r' then "\\r"
  else if c = '\t' then "\\t"
  else String.singleton c

/-- repr of a Python string: single quotes, switching to double quotes
when the text contains a single quote but no double quote.
Escaping of other non-printable characters is not modeled. -/
def reprOfString (s : String) : String :=
  let q := if s.toList.contains quoteChar && !(s.toList.contains dquoteChar)
           then dquoteChar else quoteChar
  String.singleton q ++ String.join (s.toList.map (reprEscChar q)) ++ String.singleton q

mutual

/-- Python repr(v).  Default object repr is abstracted to
a form without the memory address. -/
def pyRepr : Val → String
  | .vnone => "None"
  | .vbool b => if b then "True" else "False"
  | .vint n => toString n
  | .vstr s => reprOfString s
  | .vlist xs => "[" ++ pyReprJoin xs ++ "]"
  | .vtuple xs => "(" ++ pyReprJoin xs ++ (if xs.length = 1 then ",)" else ")")
  | .vdict es => lbr ++ pyReprEntries es ++ rbr
  | .vobj cls _ => "<" ++ cls ++ " object>"

def pyReprJoin : List Val → String
  | [] => ""
  | [x] => pyRepr x
  | x :: xs => pyRepr x ++ ", " ++ pyReprJoin xs

def pyReprEntries : List (String × Val) → String
  | [] => ""
  | [(k, v)] => reprOfString k ++ ": " ++ pyRepr v
  | (k, v) :: es => reprOfString k ++ ": " ++ pyRepr v ++ ", " ++ pyReprEntries es

end

/-- Python str(v): identity on strings, repr on containers, the usual
text for scalars. -/
def pyStr (v : Val) : String :=
  match v with
  | .vstr s => s
  | _ => pyRepr v

/-- Python a + b for the value shapes the embedded code can reach:
int/bool addition, sequence and string concatenation; anything else is a
TypeError. -/
def pyAdd (a b : Val) : Except PyExc Val :=
  match toIntQ a, toIntQ b with
  | some x, some y => .ok (.vint (x + y))
  | _, _ =>
    match a, b with
    | .vstr x, .vstr y => .ok (.vstr (x ++ y))
    | .vlist x, .vlist y => .ok (.vlist (x ++ y))
    | .vtuple x, .vtuple y => .ok (.vtuple (x ++ y))
    | _, _ => .error (.typeError "unsupported operand type for +")

/-- Python v > 0. -/
def pyGtZero (v : Val) : Except PyExc Bool :=
  match toIntQ v with
  | some n => .ok (n > 0)
  | none => .error (.typeError "unsupported comparison with int")

/-- Python iteration over a value: lists and tuples give their elements,
strings their characters, dicts their keys; everything else raises. -/
def pyIter (v : Val) : Except PyExc (List Val) :=
  match v with
  | .vlist xs => .ok xs
  | .vtuple xs => .ok xs
  | .vstr s => .ok (s.toList.map (fun c => .vstr (String.singleton c)))
  | .vdict es => .ok (es.map (fun kv => .vstr kv.1))
  | _ => .error (.typeError "object is not iterable")

/-- list.extend(v): concatenation after iterating v. -/
def pyExtend (acc : List Val) (v : Val) : Except PyExc (List Val) :=
  match pyIter v with
  | .error e => .error e
  | .ok xs => .ok (acc ++ xs)

/-- name in a set of strings: raises on unhashable values, otherwise
only a str can be a member. -/
def memStrSet (v : Val) (s : List String) : Except PyExc Bool :=
  if pyHashable v then
    match v with
    | .vstr t => .ok (s.contains t)
    | _ => .ok false
  else .error (.typeError "unhashable type")

/-!  Events (events.py).  Timestamps are not modeled; for duration_ms
only presence is kept (durationSome). -/

/-- The payload of a ToolCallStartEvent; also the record stored in the
pending-tool-call map. -/
structure ToolCallStart where
  id : Val
  name : Val
  args : Val
  node : Val
deriving Repr

/-- Typed stream events (events.py). -/
inductive Event where
  | content (content : String) (role : String) (node : Val)
  | toolCallStart (tc : ToolCallStart)
  | toolCallEnd (id : Val) (name : Val) (result : Val) (status : String)
      (errorMessage : Option String) (durationSome : Bool)
  | toolExtracted (toolName : Val) (extractedType : String) (data : Val)
  | interrupt (actionRequests : List Val) (reviewConfigs : List Val) (rawValue : Val)
  | stateUpdate (node : String) (key : String) (value : Val)
  | usage (inputTokens : Val) (outputTokens : Val) (totalTokens : Val) (node : String)
  | complete
  | error (error : String) (exc : PyExc)
deriving Repr

namespace Event

/-- Terminal events are CompleteEvent and ErrorEvent. -/
def isTerminal : Event → Bool
  | .complete => true
  | .error _ _ => true
  | _ => false

/-- ContentEvent discriminator. -/
def isContent : Event → Bool
  | .content _ _ _ => true
  | _ => false

/-- ToolCallStartEvent discriminator. -/
def isToolStart : Event → Bool
  | .toolCallStart _ => true
  | _ => false

/-- ToolCallEndEvent discriminator. -/
def isToolEnd : Event → Bool
  | .toolCallEnd _ _ _ _ _ _ => true
  | _ => false

/-- Whether a tool lifecycle or extraction event carries the given tool
name in its name field. -/
def bearsToolName (e : Event) (n : String) : Bool :=
  match e with
  | .toolCallStart tc => valEqStr tc.name n
  | .toolCallEnd _ name _ _ _ _ => valEqStr name n
  | .toolExtracted toolName _ _ => valEqStr toolName n
  | _ => false

end Event

/-!  The pending-tool-call map (dict keyed by tool_call_id values). -/

/-- The pending-tool-call map: id value to stored start event. -/
abbrev Pending := List (Val × ToolCallStart)

/-- The replacement step of dict assignment. -/
def pendingInsertGo (k : Val) (d : ToolCallStart) : Pending → Pending
  | [] => [(k, d)]
  | (k1, d1) :: rest =>
    if pyEq k1 k then (k, d) :: rest else (k1, d1) :: pendingInsertGo k d rest

/-- dict assignment d[k] = v: raises on unhashable keys, replaces the
first equal key in place, otherwise appends. -/
def pendingInsert (p : Pending) (k : Val) (d : ToolCallStart) : Except PyExc Pending :=
  if pyHashable k then .ok (pendingInsertGo k d p)
  else .error (.typeError "unhashable type")

/-- The removal step of dict.pop. -/
def pendingPopGo (k : Val) : Pending → Option ToolCallStart × Pending
  | [] => (none, [])
  | (k1, d1) :: rest =>
    if pyEq k1 k then (some d1, rest)
    else
      let r := pendingPopGo k rest
      (r.1, (k1, d1) :: r.2)

/-- dict.pop(k, None): raises on unhashable keys, otherwise removes and
returns the first binding with an equal key. -/
def pendingPop (p : Pending) (k : Val) : Except PyExc (Option ToolCallStart × Pending) :=
  if pyHashable k then .ok (pendingPopGo k p)
  else .error (.typeError "unhashable type")

/-- Whether the pending map holds a binding for the key. -/
def pendingHasKey (p : Pending) (k : Val) : Bool :=
  p.any (fun kv => pyEq kv.1 k)

/-!  extractors/messages.py -/

/-- get_message_type_name: the class name of the value.  hasattr
(message, "__class__") is true of every Python value, so the source
function never returns None on the embedded value model. -/
def getMessageTypeName (v : Val) : String :=
  match v with
  | .vobj cls _ => cls
  | .vnone => "NoneType"
  | .vbool _ => "bool"
  | .vint _ => "int"
  | .vstr _ => "str"
  | .vlist _ => "list"
  | .vtuple _ => "tuple"
  | .vdict _ => "dict"

/-- A list of parts is joined by " ".flatten(parts); a non-str part raises
TypeError. -/
def joinParts (parts : List Val) : Except PyExc String :=
  match parts with
  | [] => .ok ""
  | .vstr s :: rest =>
    match joinParts rest with
    | .error e => .error e
    | .ok "" => if rest.isEmpty then .ok s else .ok (s ++ " ")
    | .ok t => .ok (s ++ " " ++ t)
  | _ => .error (.typeError "sequence item: expected str instance")

/-- extract_message_content: string content as-is, a list of content
blocks joined by spaces (dict blocks read their "text" key with str(block)
as eager default), other content via str(). -/
def extractMessageContent (message : Val) : Except PyExc String :=
  if !(hasattr message "content") then .ok ""
  else
    match getattrD message "content" .vnone with
    | .vstr s => .ok s
    | .vlist blocks =>
      joinParts (blocks.map (fun b =>
        match b with
        | .vdict d => dictGetD d "text" (.vstr (pyStr b))
        | _ => .vstr (pyStr b)))
    | c => .ok (pyStr c)

/-!  clean_tool_dict_from_content is re.sub with the fixed pattern
matching stringified tool-call dicts, followed by str.strip.  The
matcher below implements exactly that pattern, character by character:
after a literal open brace, quoted id field, input field holding a
brace-delimited block (non-greedy), then name and type fields.  The
scan removes every non-overlapping leftmost match.  A fuel argument
bounds the recursion; the scan consumes at least one character per
step, so fuel equal to the length of the input is sufficient. -/

/-- Consume one literal character. -/
def litChar (c : Char) : List Char → Option (List Char)
  | x :: rest => if x = c then some rest else none
  | [] => none

/-- Consume a literal string. -/
def litStr (s : String) (cs : List Char) : Option (List Char) :=
  go s.toList cs
where
  go : List Char → List Char → Option (List Char)
    | [], rest => some rest
    | l :: ls, x :: rest => if x = l then go ls rest else none
    | _ :: _, [] => none

/-- Consume pattern whitespace greedily. -/
def skipWs (cs : List Char) : List Char :=
  cs.dropWhile isPySpace

/-- Consume one or more non-quote characters greedily. -/
def takeNonQuote1 (cs : List Char) : Option (List Char) :=
  let rest := cs.dropWhile (fun c => c != quoteChar)
  if rest.length = cs.length then none else some rest

/-- Consume a quoted run: quote, one or more non-quotes, quote. -/
def quotedRun (cs : List Char) : Option (List Char) := do
  let cs1 ← litChar quoteChar cs
  let cs2 ← takeNonQuote1 cs1
  litChar quoteChar cs2

/-- Tail of the tool-dict pattern after the inner input block: a close
brace, comma, name field, comma, type field with value tool_use, and the
final close brace. -/
def matchTail (cs : List Char) : Option (List Char) := do
  let cs1 ← litChar (Char.ofNat 125) cs
  let cs2 ← litChar ',' cs1
  let cs3 := skipWs cs2
  let cs4 ← litStr "name" =<< litChar quoteChar cs3
  let cs5 ← litChar ':' =<< litChar quoteChar cs4
  let cs6 ← quotedRun (skipWs cs5)
  let cs7 ← litChar ',' cs6
  let cs8 := skipWs cs7
  let cs9 ← litStr "type" =<< litChar quoteChar cs8
  let cs10 ← litChar ':' =<< litChar quoteChar cs9
  let cs11 := skipWs cs10
  let cs12 ← litStr "tool_use" =<< litChar quoteChar cs11
  let cs13 ← litChar quoteChar cs12
  litChar (Char.ofNat 125) cs13

/-- The non-greedy dot-star before the tail: try the tail at the current
position first, else consume one character (any character, DOTALL). -/
def dotStarMin : List Char → Option (List Char)
  | [] => matchTail []
  | c :: cs =>
    match matchTail (c :: cs) with
    | some rest => some rest
    | none => dotStarMin cs

/-- Match the tool-dict pattern at the current position, starting after
its leading open brace; returns the remainder after the full match. -/
def matchToolDictAfterBrace (cs : List Char) : Option (List Char) := do
  let cs1 ← litStr "id" =<< litChar quoteChar cs
  let cs2 ← litChar ':' =<< litChar quoteChar cs1
  let cs3 ← quotedRun (skipWs cs2)
  let cs4 ← litChar ',' cs3
  let cs5 := skipWs cs4
  let cs6 ← litStr "input" =<< litChar quoteChar cs5
  let cs7 ← litChar ':' =<< litChar quoteChar cs6
  let cs8 := skipWs cs7
  let cs9 ← litChar (Char.ofNat 123) cs8
  dotStarMin cs9

/-- Left-to-right scan removing every leftmost non-overlapping match. -/
def subScan (fuel : Nat) (cs : List Char) : List Char :=
  match fuel, cs with
  | 0, rest => rest
  | _, [] => []
  | fuel1 + 1, c :: rest =>
    if c = Char.ofNat 123 then
      match matchToolDictAfterBrace rest with
      | some after => subScan fuel1 after
      | none => c :: subScan fuel1 rest
    else c :: subScan fuel1 rest

/-- clean_tool_dict_from_content: remove stringified tool-call dicts and
strip the result. -/
def cleanToolDictFromContent (content : String) : String :=
  pyStrip (String.mk (subScan (content.toList.length + 1) content.toList))

/-- A tool call normalized by extract_tool_calls. -/
structure ToolCall where
  id : Val
  name : Val
  args : Val
deriving Repr

/-- extract_tool_calls: read id, name and args from each element of the
tool_calls attribute (dict entries via get, objects via getattr).
Iterating a non-iterable truthy tool_calls value raises. -/
def extractToolCalls (message : Val) : Except PyExc (List ToolCall) :=
  if !(hasattr message "tool_calls") ||
     !(getattrD message "tool_calls" .vnone).pyTruthy then .ok []
  else
    match pyIter (getattrD message "tool_calls" .vnone) with
    | .error e => .error e
    | .ok tcs =>
      .ok (tcs.map (fun tc =>
        match tc with
        | .vdict d =>
          { id := dictGetD d "id" .vnone,
            name := dictGetD d "name" .vnone,
            args := dictGetD d "args" (.vdict []) }
        | v =>
          { id := getattrD v "id" .vnone,
            name := getattrD v "name" .vnone,
            args := getattrD v "args" (.vdict []) }))

/-- The error text prefixes recognized by detect_tool_error. -/
def errorStarts : List String := ["error:", "failed:", "exception:", "traceback"]

/-- str.startswith over character lists (kept definitionally reducible). -/
def startsWithChars : List Char → List Char → Bool
  | _, [] => true
  | [], _ :: _ => false
  | c :: cs, p :: ps => c = p && startsWithChars cs ps

/-- str.startswith. -/
def pyStartsWith (s p : String) : Bool := startsWithChars s.toList p.toList

/-- detect_tool_error: explicit status attribute first, then a dict
content with a truthy error key, then string content whose lowered and
stripped text starts with a known error marker. -/
def detectToolError (message : Val) : Bool × Option String :=
  if valEqStr (getattrD message "status" .vnone) "error" then
    let content := getattrD message "content" (.vstr "")
    (true, some (if content.pyTruthy then pyStr content else "Unknown error"))
  else
    match getattrD message "content" .vnone with
    | .vdict d =>
      if (dictGetD d "error" .vnone).pyTruthy then
        (true, some (pyStr (dictGetD d "error" .vnone)))
      else (false, none)
    | .vstr s =>
      if errorStarts.any (fun p => pyStartsWith (pyStrip (pyLower s)) p) then
        (true, some s)
      else (false, none)
    | _ => (false, none)

/-!  extractors/interrupts.py -/

/-- _extract_from_interrupt_obj: value-attribute dict first, then plain
dict, then attribute access with empty-list defaults. -/
def extractFromInterruptObj (obj : Val) : Val × Val :=
  if hasattr obj "value" && (getattrD obj "value" .vnone).isDict then
    match getattrD obj "value" .vnone with
    | .vdict d =>
      (dictGetD d "action_requests" (.vlist []),
       dictGetD d "review_configs" (.vlist []))
    | _ => (.vlist [], .vlist [])
  else
    match obj with
    | .vdict d =>
      (dictGetD d "action_requests" (.vlist []),
       dictGetD d "review_configs" (.vlist []))
    | _ =>
      (getattrD obj "action_requests" (.vlist []),
       getattrD obj "review_configs" (.vlist []))

/-- Aggregation loop of parse_interrupt_value over a tuple of wrapped
interrupt objects: extend the accumulators with each extracted pair
(extending with a non-iterable raises). -/
def extendAll (objs : List Val) (accA accC : List Val) : Except PyExc (Val × Val) :=
  match objs with
  | [] => .ok (.vlist accA, .vlist accC)
  | o :: os =>
    let pr := extractFromInterruptObj o
    match pyExtend accA pr.1 with
    | .error e => .error e
    | .ok a2 =>
      match pyExtend accC pr.2 with
      | .error e => .error e
      | .ok c2 => extendAll os a2 c2

/-- parse_interrupt_value: tuples of wrapped objects aggregate across
all elements when the first exposes a value attribute; single-element
tuples unwrap; two-element tuples are the legacy (actions, configs)
pair when both are lists, otherwise aggregated; dicts and objects are
read directly. -/
def parseInterruptValue (interruptValue : Val) : Except PyExc (Val × Val) :=
  match interruptValue with
  | .vtuple elems =>
    match elems with
    | e0 :: _ =>
      if hasattr e0 "value" then extendAll elems [] []
      else if elems.length = 1 then .ok (extractFromInterruptObj e0)
      else if elems.length = 2 then
        match elems with
        | [f, s] =>
          if f.isList && s.isList then .ok (f, s)
          else extendAll [f, s] [] []
        | _ => .ok (.vlist [], .vlist [])
      else .ok (.vlist [], .vlist [])
    | [] => .ok (.vlist [], .vlist [])
  | .vdict d =>
    .ok (dictGetD d "action_requests" (.vlist []),
         dictGetD d "review_configs" (.vlist []))
  | v =>
    .ok (getattrD v "action_requests" (.vlist []),
         getattrD v "review_configs" (.vlist []))

/-- serialize_action_request: tool falls back to name (Python or), the
id falls back to a synthesized call_ string from the position, args to
an empty dict and description to None. -/
def serializeActionRequest (action : Val) (index : Nat) : Val :=
  match action with
  | .vdict d =>
    let t := dictGetD d "tool" .vnone
    .vdict [("tool", if t.pyTruthy then t else dictGetD d "name" .vnone),
            ("tool_call_id", dictGetD d "tool_call_id" (.vstr ("call_" ++ toString index))),
            ("args", dictGetD d "args" (.vdict [])),
            ("description", dictGetD d "description" .vnone)]
  | _ =>
    let t := getattrD action "tool" .vnone
    .vdict [("tool", if t.pyTruthy then t else getattrD action "name" .vnone),
            ("tool_call_id", getattrD action "tool_call_id" (.vstr ("call_" ++ toString index))),
            ("args", getattrD action "args" (.vdict [])),
            ("description", getattrD action "description" .vnone)]

/-- serialize_review_config. -/
def serializeReviewConfig (config : Val) : Val :=
  match config with
  | .vdict d => .vdict [("allowed_decisions", dictGetD d "allowed_decisions" (.vlist []))]
  | _ => .vdict [("allowed_decisions", getattrD config "allowed_decisions" (.vlist []))]

/-- process_interrupt: parse the raw value, then serialize every action
request with its position and every review config.  Enumerating a
non-iterable parsed component raises. -/
def processInterrupt (interruptValue : Val) : Except PyExc (List Val × List Val) :=
  match parseInterruptValue interruptValue with
  | .error e => .error e
  | .ok (ars, rcs) =>
    match pyIter ars with
    | .error e => .error e
    | .ok actions =>
      match pyIter rcs with
      | .error e => .error e
      | .ok configs =>
        .ok (actions.enum.map (fun p => serializeActionRequest p.2 p.1),
             configs.map serializeReviewConfig)

/-!  resume.py -/

/-- The langgraph Command container the resume builder produces;
modeled by its resume payload (the only part this package constructs). -/
inductive Command where
  | mk (resume : Val)
deriving Repr

/-- create_resume_input: exactly one of decisions and value must be
provided; a decision list is wrapped unchanged under the decisions key.
The source raises ValueError from a plain function, so the failure is
immediate at call time (the Except result is computed eagerly, before
any stream iteration).  Quotes in the source message texts are elided. -/
def createResumeInput (decisions : Option Val) (value : Option Val) :
    Except PyExc Command :=
  match decisions, value with
  | none, none => .error (.valueError "Must provide either decisions or value")
  | some _, some _ => .error (.valueError "Cannot provide both decisions and value")
  | some d, none => .ok (.mk (.vdict [("decisions", d)]))
  | none, some v => .ok (.mk v)

/-!  Tool extractors (extractors/base.py).  An extractor is its tool
name, its extracted_type, and an extract function; extract returning
none models a raised exception (swallowed by the handler), some .vnone
models an explicit None result (no event). -/

/-- A registered tool extractor. -/
structure Extr where
  toolName : String
  extractedType : String
  extract : Val → Option Val

/-- The extractor registry (dict keyed by tool name); lookup of a
truthy non-string key misses. -/
def lookupExtr (exts : List (String × Extr)) (toolName : Val) : Option Extr :=
  match toolName with
  | .vstr s =>
    match exts.find? (fun kv => kv.1 = s) with
    | some kv => some kv.2
    | none => none
  | _ => none

/-!  handlers/updates.py -/

/-- UpdatesHandler configuration. -/
structure UpdCfg where
  extractors : List (String × Extr)
  skipTools : List String
  trackToolLifecycle : Bool
  includeStateUpdates : Bool
  suppressContent : Bool

/-- The outcome of running a handler generator over one input: the
events yielded before it returned or raised, the pending map after,
and the exception if one was raised. -/
structure StepOut where
  events : List Event
  pending : Pending
  exc : Option PyExc
deriving Repr

/-- Sequence two generator fragments: a raised exception stops the
second, but events already yielded are kept. -/
def StepOut.chain (a : StepOut) (f : Pending → StepOut) : StepOut :=
  match a.exc with
  | some _ => a
  | none =>
    let b := f a.pending
    ⟨a.events ++ b.events, b.pending, b.exc⟩

/-- The tool-call lifecycle loop of _process_ai_message: skip tools in
the skip set, record each remaining call as pending, then yield its
start event.  An unhashable name or id raises (the event for an
unhashable id is not yielded, since the dict assignment precedes the
yield in the source). -/
def processToolCallLoop (cfg : UpdCfg) (node : String) :
    Pending → List ToolCall → StepOut
  | p, [] => ⟨[], p, none⟩
  | p, tc :: rest =>
    match memStrSet tc.name cfg.skipTools with
    | .error e => ⟨[], p, some e⟩
    | .ok true => processToolCallLoop cfg node p rest
    | .ok false =>
      let ev : ToolCallStart := ⟨tc.id, tc.name, tc.args, .vstr node⟩
      match pendingInsert p tc.id ev with
      | .error e => ⟨[], p, some e⟩
      | .ok p2 =>
        let r := processToolCallLoop cfg node p2 rest
        ⟨.toolCallStart ev :: r.events, r.pending, r.exc⟩

/-- A ContentEvent singleton for non-empty content, else nothing. -/
def contentEventList (c : String) (role : String) (node : String) : List Event :=
  if c != "" then [.content c role (.vstr node)] else []

/-- The content part of _process_ai_message: extract, strip, clean tool
echoes when tool calls were present, and yield when non-empty. -/
def aiContentEvents (node : String) (message : Val) (toolCalls : List ToolCall) :
    Except PyExc (List Event) :=
  match extractMessageContent message with
  | .error e => .error e
  | .ok raw =>
    let c1 := if raw != "" then pyStrip raw else ""
    let c2 := if c1 != "" && !toolCalls.isEmpty then cleanToolDictFromContent c1 else c1
    .ok (contentEventList c2 "assistant" node)

/-- The usage part of _process_ai_message: read usage_metadata, compute
the default total eagerly (which can raise), and yield a UsageEvent
when the total is positive. -/
def aiUsageEvents (node : String) (message : Val) : Except PyExc (List Event) :=
  let usage := getattrD message "usage_metadata" .vnone
  if usage.pyTruthy && usage.isDict then
    match usage with
    | .vdict d =>
      let it := dictGetD d "input_tokens" (.vint 0)
      let ot := dictGetD d "output_tokens" (.vint 0)
      match pyAdd it ot with
      | .error e => .error e
      | .ok s =>
        let tt := dictGetD d "total_tokens" s
        match pyGtZero tt with
        | .error e => .error e
        | .ok true => .ok [.usage it ot tt node]
        | .ok false => .ok []
    | _ => .ok []
  else .ok []

/-- _process_ai_message: tool-call extraction, the lifecycle loop, the
content part unless suppressed, then the usage part. -/
def processAiMessage (cfg : UpdCfg) (p : Pending) (node : String) (message : Val) :
    StepOut :=
  match extractToolCalls message with
  | .error e => ⟨[], p, some e⟩
  | .ok toolCalls =>
    let lifecycle : StepOut :=
      if cfg.trackToolLifecycle then processToolCallLoop cfg node p toolCalls
      else ⟨[], p, none⟩
    lifecycle.chain (fun p1 =>
      let contentPart : StepOut :=
        if !cfg.suppressContent then
          match aiContentEvents node message toolCalls with
          | .error e => ⟨[], p1, some e⟩
          | .ok evs => ⟨evs, p1, none⟩
        else ⟨[], p1, none⟩
      contentPart.chain (fun p2 =>
        match aiUsageEvents node message with
        | .error e => ⟨[], p2, some e⟩
        | .ok evs => ⟨evs, p2, none⟩))

/-- _process_human_message: content with role human unless suppressed
or empty after stripping. -/
def processHumanMessage (cfg : UpdCfg) (node : String) (message : Val) :
    Except PyExc (List Event) :=
  if cfg.suppressContent then .ok []
  else
    match extractMessageContent message with
    | .error e => .error e
    | .ok raw =>
      let c := if raw != "" then pyStrip raw else ""
      .ok (contentEventList c "human" node)

/-- _process_tool_message: skip-set check first, then error detection,
then extraction (artifact preferred over content, exceptions
swallowed), then the lifecycle end event for a truthy tool_call_id. -/
def processToolMessage (cfg : UpdCfg) (p : Pending) (message : Val) : StepOut :=
  let toolName := getattrD message "name" .vnone
  let toolCallId := getattrD message "tool_call_id" .vnone
  let content := getattrD message "content" .vnone
  let artifact := getattrD message "artifact" .vnone
  match memStrSet toolName cfg.skipTools with
  | .error e => ⟨[], p, some e⟩
  | .ok true => ⟨[], p, none⟩
  | .ok false =>
    let det := detectToolError message
    let extractedEvents : List Event :=
      match (if toolName.pyTruthy then lookupExtr cfg.extractors toolName else none) with
      | none => []
      | some ext =>
        match ext.extract (if artifact.isNone then content else artifact) with
        | none => []
        | some .vnone => []
        | some v => [.toolExtracted toolName ext.extractedType v]
    if cfg.trackToolLifecycle && toolCallId.pyTruthy then
      match pendingPop p toolCallId with
      | .error e => ⟨extractedEvents, p, some e⟩
      | .ok (startEvent, p2) =>
        ⟨extractedEvents ++
          [.toolCallEnd toolCallId
            (if toolName.pyTruthy then toolName else .vstr "unknown")
            content
            (if det.1 then "error" else "success")
            det.2
            startEvent.isSome],
          p2, none⟩
    else ⟨extractedEvents, p, none⟩

/-- The per-message dispatch loop inside _process_messages. -/
def processMessageLoop (cfg : UpdCfg) (node : String) :
    Pending → List Val → StepOut
  | p, [] => ⟨[], p, none⟩
  | p, m :: rest =>
    let step : StepOut :=
      match getMessageTypeName m with
      | "ToolMessage" => processToolMessage cfg p m
      | "AIMessage" => processAiMessage cfg p node m
      | "AIMessageChunk" => processAiMessage cfg p node m
      | "HumanMessage" =>
        match processHumanMessage cfg node m with
        | .error e => ⟨[], p, some e⟩
        | .ok evs => ⟨evs, p, none⟩
      | _ => ⟨[], p, none⟩
    step.chain (fun p1 => processMessageLoop cfg node p1 rest)

/-- _process_messages: nothing for falsy input, non-lists are wrapped
as a single message, then each message is dispatched in order. -/
def processMessages (cfg : UpdCfg) (p : Pending) (node : String) (messages : Val) :
    StepOut :=
  if !messages.pyTruthy then ⟨[], p, none⟩
  else
    let ms := match messages with
      | .vlist xs => xs
      | v => [v]
    processMessageLoop cfg node p ms

/-- _process_node_update: non-dict state contributes nothing; the
messages key is processed when truthy; the remaining keys become
StateUpdateEvents when enabled. -/
def processNodeUpdate (cfg : UpdCfg) (p : Pending) (node : String) (stateData : Val) :
    StepOut :=
  match stateData with
  | .vdict d =>
    let msgsPart : StepOut :=
      if dictHasKey d "messages" && (dictGetD d "messages" .vnone).pyTruthy then
        processMessages cfg p node (dictGetD d "messages" .vnone)
      else ⟨[], p, none⟩
    msgsPart.chain (fun p1 =>
      if cfg.includeStateUpdates then
        ⟨d.filterMap (fun kv =>
            if kv.1 != "messages" then some (.stateUpdate node kv.1 kv.2) else none),
          p1, none⟩
      else ⟨[], p1, none⟩)
  | _ => ⟨[], p, none⟩

/-- The node loop of UpdatesHandler.process_chunk. -/
def processNodeLoop (cfg : UpdCfg) :
    Pending → List (String × Val) → StepOut
  | p, [] => ⟨[], p, none⟩
  | p, (node, sd) :: rest =>
    (processNodeUpdate cfg p node sd).chain (fun p1 =>
      processNodeLoop cfg p1 rest)

/-- UpdatesHandler.process_chunk: non-dicts contribute nothing; an
interrupt key short-circuits into a single InterruptEvent; otherwise
every node entry is processed in order. -/
def updProcessChunk (cfg : UpdCfg) (p : Pending) (chunk : Val) : StepOut :=
  match chunk with
  | .vdict d =>
    if dictHasKey d "__interrupt__" then
      let raw := dictGetD d "__interrupt__" .vnone
      match processInterrupt raw with
      | .error e => ⟨[], p, some e⟩
      | .ok (ars, rcs) => ⟨[.interrupt ars rcs raw], p, none⟩
    else processNodeLoop cfg p d
  | _ => ⟨[], p, none⟩

/-!  handlers/messages.py -/

/-- MessagesHandler.process_chunk: unwrap a (message, metadata) pair,
and yield the unstripped text content of an AIMessageChunk when
non-empty, with the node read from the metadata. -/
def msgsProcessChunk (chunk : Val) : List Event × Option PyExc :=
  let pr : Val × Val :=
    match chunk with
    | .vtuple [a, b] => (a, b)
    | _ => (chunk, .vdict [])
  if getMessageTypeName pr.1 = "AIMessageChunk" then
    match extractMessageContent pr.1 with
    | .error e => ([], some e)
    | .ok content =>
      if content = "" then ([], none)
      else
        let node : Val :=
          match pr.2 with
          | .vdict d => dictGetD d "langgraph_node" .vnone
          | _ => .vnone
        ([.content content "assistant" node], none)
  else ([], none)

/-!  parser.py -/

/-- _is_multi_mode: a 2-tuple whose first element is one of the known
mode names. -/
def isMultiMode (chunk : Val) : Bool :=
  match chunk with
  | .vtuple [first, _] =>
    match first with
    | .vstr s => s = "updates" || s = "messages"
    | _ => false
  | _ => false

/-- The validated stream_mode of a StreamParser.  The multi constructor
stands for any validated list of modes: _parse_multi_mode ignores the
list content and always routes updates and messages envelopes. -/
inductive Mode where
  | updates
  | messages
  | auto
  | multi
deriving Repr

/-- A StreamParser configuration after __init__ validation. -/
structure ParserCfg where
  mode : Mode
  trackToolLifecycle : Bool
  skipTools : List String
  includeStateUpdates : Bool
  extractors : List (String × Extr)

/-- _create_updates_handler for a parser configuration. -/
def updCfgOf (c : ParserCfg) (suppressContent : Bool) : UpdCfg :=
  ⟨c.extractors, c.skipTools, c.trackToolLifecycle, c.includeStateUpdates,
   suppressContent⟩

/-- One chunk of the single updates mode loop. -/
def updStep (c : ParserCfg) (p : Pending) (chunk : Val) : StepOut :=
  updProcessChunk (updCfgOf c false) p chunk

/-- One chunk of the single messages mode loop (the messages handler
does not touch the pending map). -/
def msgStep (p : Pending) (chunk : Val) : StepOut :=
  let r := msgsProcessChunk chunk
  ⟨r.1, p, r.2⟩

/-- One chunk of _parse_multi_mode: non-2-tuples are skipped; updates
envelopes go to a content-suppressed updates handler, messages
envelopes to the messages handler; other mode names are skipped. -/
def multiStep (c : ParserCfg) (p : Pending) (chunk : Val) : StepOut :=
  match chunk with
  | .vtuple [modeName, data] =>
    if valEqStr modeName "updates" then
      updProcessChunk (updCfgOf c true) p data
    else if valEqStr modeName "messages" then
      let r := msgsProcessChunk data
      ⟨r.1, p, r.2⟩
    else ⟨[], p, none⟩
  | _ => ⟨[], p, none⟩

/-- The ErrorEvent yielded by the except clause of parse/aparse. -/
def mkErrorEvent (e : PyExc) : Event :=
  .error ("Error parsing stream: " ++ pyExcStr e) e

/-- A raw stream is modeled as the chunks it delivers followed by an
optional exception raised by the next pull after them; parse drains the
stream, so the pull exception (when present) is always reached unless a
processing exception occurs first.  This loop is the body of the try
block of parse together with its except clause and trailing
CompleteEvent. -/
def parseLoop (step : Pending → Val → StepOut) :
    Pending → List Val → Option PyExc → List Event
  | _, [], none => [.complete]
  | _, [], some e => [mkErrorEvent e]
  | p, chunk :: rest, pullExc =>
    let r := step p chunk
    match r.exc with
    | some e => r.events ++ [mkErrorEvent e]
    | none => r.events ++ parseLoop step r.pending rest pullExc

/-- StreamParser.parse (and aparse, which is the same algorithm with an
async pull): resolve auto by peeking at the first chunk, then run the
matching handler loop.  A raised StopIteration on an empty stream in
auto mode falls back to updates mode over the empty stream. -/
def streamParse (c : ParserCfg) (chunks : List Val) (pullExc : Option PyExc) :
    List Event :=
  match c.mode with
  | .updates => parseLoop (updStep c) [] chunks pullExc
  | .messages => parseLoop msgStep [] chunks pullExc
  | .multi => parseLoop (multiStep c) [] chunks pullExc
  | .auto =>
    match chunks with
    | [] => parseLoop (updStep c) [] [] pullExc
    | first :: _ =>
      if isMultiMode first then parseLoop (multiStep c) [] chunks pullExc
      else parseLoop (updStep c) [] chunks pullExc

/-- The first exception a parse run encounters: a processing exception
from some chunk, else the pull exception of the raw stream. -/
def loopExc (step : Pending → Val → StepOut) :
    Pending → List Val → Option PyExc → Option PyExc
  | _, [], pullExc => pullExc
  | p, chunk :: rest, pullExc =>
    let r := step p chunk
    match r.exc with
    | some e => some e
    | none => loopExc step r.pending rest pullExc

/-- The first exception streamParse encounters on the given input. -/
def parseExc (c : ParserCfg) (chunks : List Val) (pullExc : Option PyExc) :
    Option PyExc :=
  match c.mode with
  | .updates => loopExc (updStep c) [] chunks pullExc
  | .messages => loopExc msgStep [] chunks pullExc
  | .multi => loopExc (multiStep c) [] chunks pullExc
  | .auto =>
    match chunks with
    | [] => loopExc (updStep c) [] [] pullExc
    | first :: _ =>
      if isMultiMode first then loopExc (multiStep c) [] chunks pullExc
      else loopExc (updStep c) [] chunks pullExc

/-- The terminal event determined by the run: CompleteEvent for a clean
finish, an ErrorEvent wrapping the exception otherwise. -/
def terminalOf : Option PyExc → Event
  | none => .complete
  | some e => mkErrorEvent e

/-- StreamParser.parse_chunk: refused in auto mode; in multi mode,
chunks that are not recognized (mode, data) envelopes yield the empty
list; single modes run their handler, propagating handler exceptions
(the source wraps no try around parse_chunk). -/
def parseChunk (c : ParserCfg) (p : Pending) (chunk : Val) :
    Except PyExc (List Event × Pending) :=
  match c.mode with
  | .auto => .error (.valueError "parse_chunk does not support stream_mode auto")
  | .multi =>
    if !isMultiMode chunk then .ok ([], p)
    else
      match chunk with
      | .vtuple [modeName, data] =>
        let r : StepOut :=
          if valEqStr modeName "updates" then
            updProcessChunk (updCfgOf c true) p data
          else
            let m := msgsProcessChunk data
            ⟨m.1, p, m.2⟩
        match r.exc with
        | some e => .error e
        | none => .ok (r.events, r.pending)
      | _ => .ok ([], p)
  | .updates =>
    let r := updStep c p chunk
    match r.exc with
    | some e => .error e
    | none => .ok (r.events, r.pending)
  | .messages =>
    let r := msgStep p chunk
    match r.exc with
    | some e => .error e
    | none => .ok (r.events, r.pending)

/-!  Specification-side definitions and helper lemmas. -/

/-- Condition (a) of the specified error detection: the status
attribute equals the string error. -/
def statusErrorCond (message : Val) : Bool :=
  valEqStr (getattrD message "status" .vnone) "error"

/-- Condition (b): dict content carrying a truthy error key. -/
def dictErrorCond (message : Val) : Bool :=
  match getattrD message "content" .vnone with
  | .vdict d => (dictGetD d "error" .vnone).pyTruthy
  | _ => false

/-- Condition (c): string content whose case-insensitive
whitespace-trimmed text starts with a known error marker. -/
def strErrorCond (message : Val) : Bool :=
  match getattrD message "content" .vnone with
  | .vstr s => errorStarts.any (fun p => pyStartsWith (pyStrip (pyLower s)) p)
  | _ => false

/-- The Boolean error condition of detect_tool_error as the spec states
it: (a) or (b) or (c). -/
def detectErrorSpec (message : Val) : Bool :=
  statusErrorCond message || dictErrorCond message || strErrorCond message

/-- Events yielded by the tool-message processor are never terminal. -/
theorem nt_processToolMessage (cfg : UpdCfg) (p : Pending) (m : Val) :
    ∀ e ∈ (processToolMessage cfg p m).events, e.isTerminal = false := by
  intro e he
  simp only [processToolMessage] at he
  repeat' split at he
  all_goals (try exact absurd he (List.not_mem_nil _))
  all_goals fin_cases he <;> rfl

/-- Events yielded by the tool-call lifecycle loop are never terminal. -/
theorem nt_processToolCallLoop (cfg : UpdCfg) (node : String) :
    ∀ p tcs, ∀ e ∈ (processToolCallLoop cfg node p tcs).events, e.isTerminal = false := by
  intro p tcs
  induction tcs generalizing p with
  | nil => simp [processToolCallLoop]
  | cons tc rest ih =>
    intro e he
    simp only [processToolCallLoop] at he
    repeat' split at he
    all_goals (try exact absurd he (List.not_mem_nil _))
    all_goals (try exact ih _ e he)
    all_goals {
      obtain rfl | h := List.mem_cons.mp he
      · rfl
      · exact ih _ e h
    }

/-- Membership in chained generator output comes from one of the two
fragments. -/
theorem mem_chain_events (a : StepOut) (f : Pending → StepOut) (e : Event)
    (h : e ∈ (a.chain f).events) :
    e ∈ a.events ∨ e ∈ (f a.pending).events := by
  unfold StepOut.chain at h
  split at h
  · exact Or.inl h
  · simpa using List.mem_append.mp h

/-- Membership in a contentEventList pins the event. -/
theorem mem_contentEventList {e : Event} {c role node : String}
    (h : e ∈ contentEventList c role node) :
    e = .content c role (.vstr node) := by
  unfold contentEventList at h
  split at h
  · exact List.mem_singleton.mp h
  · exact absurd h (List.not_mem_nil _)

/-- The content part yields only ContentEvents. -/
theorem aiContentEvents_shape (node : String) (message : Val) (tcs : List ToolCall)
    (evs : List Event) (h : aiContentEvents node message tcs = .ok evs) :
    ∀ e ∈ evs, ∃ c r n, e = .content c r n := by
  intro e he
  simp only [aiContentEvents] at h
  split at h
  · exact Except.noConfusion h
  · injection h with h2
    subst h2
    obtain rfl := mem_contentEventList he
    exact ⟨_, _, _, rfl⟩

/-- The usage part yields only UsageEvents. -/
theorem aiUsageEvents_shape (node : String) (message : Val)
    (evs : List Event) (h : aiUsageEvents node message = .ok evs) :
    ∀ e ∈ evs, ∃ it ot tt n, e = .usage it ot tt n := by
  intro e he
  simp only [aiUsageEvents] at h
  repeat' split at h
  all_goals (try exact Except.noConfusion h)
  all_goals (injection h with h2; subst h2)
  all_goals (try exact absurd he (List.not_mem_nil _))
  all_goals (obtain rfl := List.mem_singleton.mp he; exact ⟨_, _, _, _, rfl⟩)

/-- Events yielded by the AI-message processor are never terminal. -/
theorem nt_processAiMessage (cfg : UpdCfg) (p : Pending) (node : String) (m : Val) :
    ∀ e ∈ (processAiMessage cfg p node m).events, e.isTerminal = false := by
  intro e he
  unfold processAiMessage at he
  split at he
  · exact absurd he (List.not_mem_nil _)
  case h_2 toolCalls heq =>
    obtain h | h := mem_chain_events _ _ _ he
    · split at h
      · exact nt_processToolCallLoop cfg node p toolCalls e h
      · exact absurd h (List.not_mem_nil _)
    · obtain h2 | h2 := mem_chain_events _ _ _ h
      · split at h2
        · split at h2
          · exact absurd h2 (List.not_mem_nil _)
          case h_2 evs heq2 =>
            obtain ⟨c, r, n, rfl⟩ := aiContentEvents_shape node m toolCalls evs heq2 e h2
            rfl
        · exact absurd h2 (List.not_mem_nil _)
      · split at h2
        · exact absurd h2 (List.not_mem_nil _)
        case h_2 evs heq2 =>
          obtain ⟨it, ot, tt, n, rfl⟩ := aiUsageEvents_shape node m evs heq2 e h2
          rfl

/-- Events yielded by the human-message processor are never terminal. -/
theorem nt_processHumanMessage (cfg : UpdCfg) (node : String) (m : Val)
    (evs : List Event) (h : processHumanMessage cfg node m = .ok evs) :
    ∀ e ∈ evs, e.isTerminal = false := by
  intro e he
  simp only [processHumanMessage] at h
  repeat' split at h
  all_goals (try exact Except.noConfusion h)
  all_goals (try (injection h with h2; subst h2; obtain rfl := mem_contentEventList he; rfl))
  all_goals (injection h with h2; subst h2; exact absurd he (List.not_mem_nil _))

/-- Events yielded by the message dispatch loop are never terminal. -/
theorem nt_processMessageLoop (cfg : UpdCfg) (node : String) :
    ∀ p ms, ∀ e ∈ (processMessageLoop cfg node p ms).events, e.isTerminal = false := by
  intro p ms
  induction ms generalizing p with
  | nil => simp [processMessageLoop]
  | cons m rest ih =>
    intro e he
    simp only [processMessageLoop] at he
    obtain h | h := mem_chain_events _ _ _ he
    · split at h
      · exact nt_processToolMessage cfg p m e h
      · exact nt_processAiMessage cfg p node m e h
      · exact nt_processAiMessage cfg p node m e h
      · split at h
        · exact absurd h (List.not_mem_nil _)
        case h_2 evs heq => exact nt_processHumanMessage cfg node m evs heq e h
      · exact absurd h (List.not_mem_nil _)
    · exact ih _ e h

/-- Events yielded by _process_messages are never terminal. -/
theorem nt_processMessages (cfg : UpdCfg) (p : Pending) (node : String) (messages : Val) :
    ∀ e ∈ (processMessages cfg p node messages).events, e.isTerminal = false := by
  intro e he
  simp only [processMessages] at he
  split at he
  · exact absurd he (List.not_mem_nil _)
  · exact nt_processMessageLoop cfg node p _ e he

/-- Events yielded by _process_node_update are never terminal. -/
theorem nt_processNodeUpdate (cfg : UpdCfg) (p : Pending) (node : String) (sd : Val) :
    ∀ e ∈ (processNodeUpdate cfg p node sd).events, e.isTerminal = false := by
  intro e he
  simp only [processNodeUpdate] at he
  split at he
  case h_1 d =>
    obtain h | h := mem_chain_events _ _ _ he
    · split at h
      · exact nt_processMessages cfg p node _ e h
      · exact absurd h (List.not_mem_nil _)
    · split at h
      · obtain ⟨kv, _, hkv⟩ := List.mem_filterMap.mp h
        split at hkv
        · obtain rfl := Option.some.inj hkv
          rfl
        · exact Option.noConfusion hkv
      · exact absurd h (List.not_mem_nil _)
  · exact absurd he (List.not_mem_nil _)

/-- Events yielded by the node loop are never terminal. -/
theorem nt_processNodeLoop (cfg : UpdCfg) :
    ∀ p entries, ∀ e ∈ (processNodeLoop cfg p entries).events, e.isTerminal = false := by
  intro p entries
  induction entries generalizing p with
  | nil => simp [processNodeLoop]
  | cons kv rest ih =>
    intro e he
    simp only [processNodeLoop] at he
    obtain h | h := mem_chain_events _ _ _ he
    · exact nt_processNodeUpdate cfg p kv.1 kv.2 e h
    · exact ih _ e h

/-- Events yielded by UpdatesHandler.process_chunk are never terminal. -/
theorem nt_updProcessChunk (cfg : UpdCfg) (p : Pending) (chunk : Val) :
    ∀ e ∈ (updProcessChunk cfg p chunk).events, e.isTerminal = false := by
  intro e he
  simp only [updProcessChunk] at he
  split at he
  case h_1 d =>
    split at he
    · split at he
      · exact absurd he (List.not_mem_nil _)
      · obtain rfl := List.mem_singleton.mp he
        rfl
    · exact nt_processNodeLoop cfg p d e he
  · exact absurd he (List.not_mem_nil _)

/-- Events yielded by MessagesHandler.process_chunk are ContentEvents. -/
theorem msgsProcessChunk_shape (chunk : Val) :
    ∀ e ∈ (msgsProcessChunk chunk).1, ∃ c r n, e = .content c r n := by
  intro e he
  simp only [msgsProcessChunk] at he
  repeat' split at he
  all_goals (try exact absurd he (List.not_mem_nil _))
  all_goals (obtain rfl := List.mem_singleton.mp he; exact ⟨_, _, _, rfl⟩)

/-- Events yielded by a multi-mode step are never terminal. -/
theorem nt_multiStep (c : ParserCfg) (p : Pending) (chunk : Val) :
    ∀ e ∈ (multiStep c p chunk).events, e.isTerminal = false := by
  intro e he
  simp only [multiStep] at he
  repeat' split at he
  all_goals (try exact absurd he (List.not_mem_nil _))
  · exact nt_updProcessChunk _ p _ e he
  · obtain ⟨c1, r, n, rfl⟩ := msgsProcessChunk_shape _ e he
    rfl

/-- Events yielded by an updates-mode step are never terminal. -/
theorem nt_updStep (c : ParserCfg) (p : Pending) (chunk : Val) :
    ∀ e ∈ (updStep c p chunk).events, e.isTerminal = false :=
  nt_updProcessChunk _ p chunk

/-- Events yielded by a messages-mode step are never terminal. -/
theorem nt_msgStep (p : Pending) (chunk : Val) :
    ∀ e ∈ (msgStep p chunk).events, e.isTerminal = false := by
  intro e he
  obtain ⟨c1, r, n, rfl⟩ := msgsProcessChunk_shape chunk e he
  rfl

/-- Master run lemma: when a step never yields terminal events, the
loop output is a non-terminal event sequence followed by exactly the
terminal event determined by the first exception of the run. -/
theorem parseLoop_split (step : Pending → Val → StepOut)
    (hstep : ∀ p c, ∀ e ∈ (step p c).events, e.isTerminal = false) :
    ∀ p chunks pullExc, ∃ pre,
      parseLoop step p chunks pullExc = pre ++ [terminalOf (loopExc step p chunks pullExc)] ∧
      ∀ e ∈ pre, e.isTerminal = false := by
  intro p chunks pullExc
  induction chunks generalizing p with
  | nil =>
    refine ⟨[], ?_, by simp⟩
    cases pullExc <;> rfl
  | cons c rest ih =>
    simp only [parseLoop, loopExc]
    split
    case h_1 e heq =>
      exact ⟨(step p c).events, by simp [terminalOf], hstep p c⟩
    case h_2 heq =>
      obtain ⟨pre, hpre, hnt⟩ := ih (step p c).pending
      refine ⟨(step p c).events ++ pre, by simp [hpre], ?_⟩
      intro e he
      obtain h | h := List.mem_append.mp he
      · exact hstep p c e h
      · exact hnt e h

/-- C1: one invocation of StreamParser.parse (or aparse, which shares
the algorithm) yields exactly one terminal event and it is the last
event: the events before the terminal are never CompleteEvent or
ErrorEvent, and the terminal is CompleteEvent exactly when the run
raised no exception, else a single ErrorEvent carrying the message
built from the original exception and the exception itself.  The model
of parse is a total function, so no exception escapes to the caller. -/
theorem claim_C1 (c : ParserCfg) (chunks : List Val) (pullExc : Option PyExc) :
    (∃ pre,
      streamParse c chunks pullExc = pre ++ [terminalOf (parseExc c chunks pullExc)] ∧
      ∀ e ∈ pre, e.isTerminal = false) ∧
    terminalOf none = Event.complete ∧
    (∀ ex, terminalOf (some ex) =
      Event.error ("Error parsing stream: " ++ pyExcStr ex) ex) := by
  refine ⟨?_, rfl, fun ex => rfl⟩
  cases hm : c.mode
  case updates =>
    simp only [streamParse, parseExc, hm]
    exact parseLoop_split _ (nt_updStep c) [] chunks pullExc
  case messages =>
    simp only [streamParse, parseExc, hm]
    exact parseLoop_split _ nt_msgStep [] chunks pullExc
  case multi =>
    simp only [streamParse, parseExc, hm]
    exact parseLoop_split _ (nt_multiStep c) [] chunks pullExc
  case auto =>
    simp only [streamParse, parseExc, hm]
    match chunks with
    | [] => exact parseLoop_split _ (nt_updStep c) [] [] pullExc
    | first :: rest =>
      by_cases hmm : isMultiMode first
      · simp only [hmm, if_true]
        exact parseLoop_split _ (nt_multiStep c) [] (first :: rest) pullExc
      · simp only [hmm, if_false, Bool.false_eq_true]
        exact parseLoop_split _ (nt_updStep c) [] (first :: rest) pullExc

/-- Witness for C1 at a concrete configuration and stream. -/
theorem claim_C1_witness :
    (∃ pre,
      streamParse ⟨.updates, true, [], false, []⟩
          [.vdict [("agent", .vdict [("messages",
            .vlist [.vobj "AIMessage" [("content", .vstr "hi")]])])]] none =
        pre ++ [terminalOf (parseExc ⟨.updates, true, [], false, []⟩
          [.vdict [("agent", .vdict [("messages",
            .vlist [.vobj "AIMessage" [("content", .vstr "hi")]])])]] none)] ∧
      ∀ e ∈ pre, e.isTerminal = false) ∧
    terminalOf none = Event.complete ∧
    (∀ ex, terminalOf (some ex) =
      Event.error ("Error parsing stream: " ++ pyExcStr ex) ex) :=
  claim_C1 ⟨.updates, true, [], false, []⟩ _ none

/-- The tool-message processor never yields ContentEvents. -/
theorem nc_processToolMessage (cfg : UpdCfg) (p : Pending) (m : Val) :
    ∀ e ∈ (processToolMessage cfg p m).events, e.isContent = false := by
  intro e he
  simp only [processToolMessage] at he
  repeat' split at he
  all_goals (try exact absurd he (List.not_mem_nil _))
  all_goals fin_cases he <;> rfl

/-- The lifecycle loop never yields ContentEvents. -/
theorem nc_processToolCallLoop (cfg : UpdCfg) (node : String) :
    ∀ p tcs, ∀ e ∈ (processToolCallLoop cfg node p tcs).events, e.isContent = false := by
  intro p tcs
  induction tcs generalizing p with
  | nil => simp [processToolCallLoop]
  | cons tc rest ih =>
    intro e he
    simp only [processToolCallLoop] at he
    repeat' split at he
    all_goals (try exact absurd he (List.not_mem_nil _))
    all_goals (try exact ih _ e he)
    all_goals {
      obtain rfl | h := List.mem_cons.mp he
      · rfl
      · exact ih _ e h
    }

/-- With content suppressed, the AI-message processor never yields
ContentEvents. -/
theorem nc_processAiMessage (cfg : UpdCfg) (hsup : cfg.suppressContent = true)
    (p : Pending) (node : String) (m : Val) :
    ∀ e ∈ (processAiMessage cfg p node m).events, e.isContent = false := by
  intro e he
  unfold processAiMessage at he
  split at he
  · exact absurd he (List.not_mem_nil _)
  case h_2 toolCalls heq =>
    obtain h | h := mem_chain_events _ _ _ he
    · split at h
      · exact nc_processToolCallLoop cfg node p toolCalls e h
      · exact absurd h (List.not_mem_nil _)
    · obtain h2 | h2 := mem_chain_events _ _ _ h
      · rw [hsup] at h2
        simp only [Bool.not_true] at h2
        rw [if_neg (by simp)] at h2
        exact absurd h2 (List.not_mem_nil _)
      · split at h2
        · exact absurd h2 (List.not_mem_nil _)
        case h_2 evs heq2 =>
          obtain ⟨it, ot, tt, n, rfl⟩ := aiUsageEvents_shape node m evs heq2 e h2
          rfl

/-- With content suppressed, the message dispatch loop never yields
ContentEvents. -/
theorem nc_processMessageLoop (cfg : UpdCfg) (hsup : cfg.suppressContent = true)
    (node : String) :
    ∀ p ms, ∀ e ∈ (processMessageLoop cfg node p ms).events, e.isContent = false := by
  intro p ms
  induction ms generalizing p with
  | nil => simp [processMessageLoop]
  | cons m rest ih =>
    intro e he
    simp only [processMessageLoop] at he
    obtain h | h := mem_chain_events _ _ _ he
    · split at h
      · exact nc_processToolMessage cfg p m e h
      · exact nc_processAiMessage cfg hsup p node m e h
      · exact nc_processAiMessage cfg hsup p node m e h
      · split at h
        case h_1 => exact absurd h (List.not_mem_nil _)
        case h_2 evs heq =>
          simp only [processHumanMessage, hsup, if_pos] at heq
          obtain rfl := Except.ok.inj heq
          exact absurd h (List.not_mem_nil _)
      · exact absurd h (List.not_mem_nil _)
    · exact ih _ e h

/-- With content suppressed, a node update never yields ContentEvents. -/
theorem nc_processNodeUpdate (cfg : UpdCfg) (hsup : cfg.suppressContent = true)
    (p : Pending) (node : String) (sd : Val) :
    ∀ e ∈ (processNodeUpdate cfg p node sd).events, e.isContent = false := by
  intro e he
  simp only [processNodeUpdate] at he
  split at he
  case h_1 d =>
    obtain h | h := mem_chain_events _ _ _ he
    · split at h
      · simp only [processMessages] at h
        split at h
        · exact absurd h (List.not_mem_nil _)
        · exact nc_processMessageLoop cfg hsup node p _ e h
      · exact absurd h (List.not_mem_nil _)
    · split at h
      · obtain ⟨kv, _, hkv⟩ := List.mem_filterMap.mp h
        split at hkv
        · obtain rfl := Option.some.inj hkv
          rfl
        · exact Option.noConfusion hkv
      · exact absurd h (List.not_mem_nil _)
  · exact absurd he (List.not_mem_nil _)

/-- With content suppressed, the node loop never yields ContentEvents. -/
theorem nc_processNodeLoop (cfg : UpdCfg) (hsup : cfg.suppressContent = true) :
    ∀ p entries, ∀ e ∈ (processNodeLoop cfg p entries).events, e.isContent = false := by
  intro p entries
  induction entries generalizing p with
  | nil => simp [processNodeLoop]
  | cons kv rest ih =>
    intro e he
    simp only [processNodeLoop] at he
    obtain h | h := mem_chain_events _ _ _ he
    · exact nc_processNodeUpdate cfg hsup p kv.1 kv.2 e h
    · exact ih _ e h

/-- With content suppressed, UpdatesHandler.process_chunk never yields
ContentEvents. -/
theorem nc_updProcessChunk (cfg : UpdCfg) (hsup : cfg.suppressContent = true)
    (p : Pending) (chunk : Val) :
    ∀ e ∈ (updProcessChunk cfg p chunk).events, e.isContent = false := by
  intro e he
  simp only [updProcessChunk] at he
  split at he
  case h_1 d =>
    split at he
    · split at he
      · exact absurd he (List.not_mem_nil _)
      · obtain rfl := List.mem_singleton.mp he
        rfl
    · exact nc_processNodeLoop cfg hsup p d e he
  · exact absurd he (List.not_mem_nil _)

/-- C4: in dual mode, ContentEvents come only from the messages channel
(the content-suppressed updates handler yields none), structural events
come only from the updates channel (the messages handler yields only
ContentEvents), and the Hello scenario of one messages token followed
by the same text in an updates AIMessage yields exactly one
ContentEvent. -/
theorem claim_C4 :
    (∀ (c : ParserCfg) (p : Pending) (chunk : Val),
      ∀ e ∈ (updProcessChunk (updCfgOf c true) p chunk).events, e.isContent = false) ∧
    (∀ chunk : Val, ∀ e ∈ (msgsProcessChunk chunk).1, e.isContent = true) ∧
    (∀ exts : List (String × Extr),
      streamParse ⟨.multi, true, [], false, exts⟩
        [.vtuple [.vstr "messages",
           .vtuple [.vobj "AIMessageChunk" [("content", .vstr "Hello")], .vdict []]],
         .vtuple [.vstr "updates",
           .vdict [("agent", .vdict [("messages",
             .vlist [.vobj "AIMessage" [("content", .vstr "Hello")]])])]]] none =
      [.content "Hello" "assistant" .vnone, .complete]) := by
  refine ⟨fun c p chunk => nc_updProcessChunk (updCfgOf c true) rfl p chunk, ?_, ?_⟩
  · intro chunk e he
    obtain ⟨c1, r, n, rfl⟩ := msgsProcessChunk_shape chunk e he
    rfl
  · intro exts
    rfl

/-- Witness for C4: the content part applied at the concrete Hello
chunk, with the membership hypothesis discharged. -/
theorem claim_C4_witness :
    (Event.content "Hello" "assistant" .vnone).isContent = true :=
  claim_C4.2.1
    (.vtuple [.vobj "AIMessageChunk" [("content", .vstr "Hello")], .vdict []])
    (Event.content "Hello" "assistant" .vnone)
    (List.Mem.head _)

/-- C9: malformed input degrades to no events rather than an error: a
non-dict chunk makes the updates handler yield nothing without raising,
a non-dict node state contributes nothing, and in multi mode
parse_chunk returns the empty list for any unrecognized chunk. -/
theorem claim_C9 :
    (∀ (cfg : UpdCfg) (p : Pending) (chunk : Val), chunk.isDict = false →
      updProcessChunk cfg p chunk = ⟨[], p, none⟩) ∧
    (∀ (cfg : UpdCfg) (p : Pending) (node : String) (sd : Val), sd.isDict = false →
      processNodeUpdate cfg p node sd = ⟨[], p, none⟩) ∧
    (∀ (c : ParserCfg) (p : Pending) (chunk : Val), c.mode = .multi →
      isMultiMode chunk = false → parseChunk c p chunk = .ok ([], p)) := by
  refine ⟨?_, ?_, ?_⟩
  · intro cfg p chunk h
    cases chunk <;> simp_all [updProcessChunk, Val.isDict]
  · intro cfg p node sd h
    cases sd <;> simp_all [processNodeUpdate, Val.isDict]
  · intro c p chunk hm hmm
    simp [parseChunk, hm, hmm]

/-- Witness for C9 at concrete malformed inputs. -/
theorem claim_C9_witness :
    updProcessChunk ⟨[], [], true, false, false⟩ [] (.vstr "oops") = ⟨[], [], none⟩ ∧
    processNodeUpdate ⟨[], [], true, false, false⟩ [] "agent" (.vint 3) = ⟨[], [], none⟩ ∧
    parseChunk ⟨.multi, true, [], false, []⟩ [] (.vstr "oops") = .ok ([], []) :=
  ⟨claim_C9.1 _ _ _ rfl, claim_C9.2.1 _ _ _ _ rfl, claim_C9.2.2 _ _ _ rfl rfl⟩

/-- The node a messages-mode ContentEvent reads from the metadata. -/
def metaNodeOf (metadata : Val) : Val :=
  match metadata with
  | .vdict d => dictGetD d "langgraph_node" .vnone
  | _ => .vnone

/-- C10: the messages handler emits extracted chunk content verbatim
(non-empty whitespace-only content is preserved unchanged), while the
updates handler strips content, so a whitespace-only AIMessage yields
no ContentEvent there. -/
theorem claim_C10 :
    (∀ (s : String) (md : Val), s ≠ "" →
      msgsProcessChunk (.vtuple [.vobj "AIMessageChunk" [("content", .vstr s)], md]) =
        ([.content s "assistant" (metaNodeOf md)], none)) ∧
    (∀ (cfg : UpdCfg) (p : Pending) (node : String) (s : String), pyStrip s = "" →
      processAiMessage cfg p node (.vobj "AIMessage" [("content", .vstr s)]) =
        ⟨[], p, none⟩) := by
  constructor
  · intro s md h
    simp [msgsProcessChunk, getMessageTypeName, extractMessageContent, hasattr,
      getattrD, dictGetD, dictHasKey, lookupStr, metaNodeOf, h]
  · intro cfg p node s h
    by_cases hsup : cfg.suppressContent <;>
      simp [processAiMessage, extractToolCalls, hasattr, getattrD, dictGetD,
        dictHasKey, lookupStr, Val.pyTruthy, processToolCallLoop, StepOut.chain,
        aiContentEvents, extractMessageContent, h, contentEventList,
        aiUsageEvents, Val.isDict, hsup]

/-- Witness for C10 at whitespace-only content. -/
theorem claim_C10_witness :
    msgsProcessChunk (.vtuple [.vobj "AIMessageChunk" [("content", .vstr " \n ")],
        .vdict [("langgraph_node", .vstr "agent")]]) =
      ([.content " \n " "assistant"
          (metaNodeOf (.vdict [("langgraph_node", .vstr "agent")]))], none) ∧
    processAiMessage ⟨[], [], true, false, false⟩ [] "agent"
        (.vobj "AIMessage" [("content", .vstr " \n ")]) = ⟨[], [], none⟩ :=
  ⟨claim_C10.1 " \n " _ (by decide), claim_C10.2 _ _ "agent" " \n " (by decide)⟩

/-- C8: create_resume_input succeeds exactly when one of the two inputs
is provided, fails with a ValueError otherwise (computed eagerly by a
plain function, before any stream iteration), and wraps a provided
decision list unchanged under the decisions key. -/
theorem claim_C8 :
    (∀ decisions value : Option Val,
      (∃ cmd, createResumeInput decisions value = .ok cmd) ↔
        decisions.isSome ≠ value.isSome) ∧
    (∀ decisions value : Option Val, decisions.isSome = value.isSome →
      ∃ msg, createResumeInput decisions value = .error (.valueError msg)) ∧
    (∀ d : Val, createResumeInput (some d) none =
      .ok (.mk (.vdict [("decisions", d)]))) := by
  refine ⟨?_, ?_, fun d => rfl⟩
  · intro od ov
    cases od <;> cases ov <;> simp [createResumeInput]
  · intro od ov h
    cases od <;> cases ov <;> simp_all [createResumeInput]

/-- Witness for C8 at concrete inputs. -/
theorem claim_C8_witness :
    ((∃ cmd, createResumeInput (some (.vlist [])) none = .ok cmd) ↔
      (some (Val.vlist [])).isSome ≠ (none : Option Val).isSome) ∧
    (∃ msg, createResumeInput none none = .error (.valueError msg)) ∧
    createResumeInput (some (.vlist [.vdict [("type", .vstr "approve")]])) none =
      .ok (.mk (.vdict [("decisions", .vlist [.vdict [("type", .vstr "approve")]])])) :=
  ⟨claim_C8.1 (some (.vlist [])) none,
   claim_C8.2.1 none none rfl,
   claim_C8.2.2 _⟩

/-- C7: detect_tool_error reports an error exactly when one of the
three specified conditions holds, in priority order (a) status, then
(b) dict error key, then (c) string prefix, first match winning for
the reported message; consequently a started search call whose
ToolMessage content is the rate-limited error text ends with an error
status ToolCallEndEvent carrying that text. -/
theorem claim_C7 :
    (∀ m : Val, (detectToolError m).1 = detectErrorSpec m) ∧
    (∀ m : Val, statusErrorCond m = true →
      detectToolError m = (true,
        some (if (getattrD m "content" (.vstr "")).pyTruthy
              then pyStr (getattrD m "content" (.vstr "")) else "Unknown error"))) ∧
    (∀ (m : Val) (d : List (String × Val)), statusErrorCond m = false →
      getattrD m "content" .vnone = .vdict d →
      (dictGetD d "error" .vnone).pyTruthy = true →
      detectToolError m = (true, some (pyStr (dictGetD d "error" .vnone)))) ∧
    (∀ (m : Val) (s : String), statusErrorCond m = false →
      getattrD m "content" .vnone = .vstr s →
      errorStarts.any (fun p => pyStartsWith (pyStrip (pyLower s)) p) = true →
      detectToolError m = (true, some s)) ∧
    streamParse ⟨.updates, true, [], false, []⟩
      [.vdict [("agent", .vdict [("messages", .vlist
          [.vobj "AIMessage" [("content", .vstr ""), ("tool_calls", .vlist
            [.vdict [("id", .vstr "call_1"), ("name", .vstr "search"),
                     ("args", .vdict [("q", .vstr "x")])]])]])])],
       .vdict [("tools", .vdict [("messages", .vlist
          [.vobj "ToolMessage" [("content", .vstr "Error: rate limited"),
             ("name", .vstr "search"), ("tool_call_id", .vstr "call_1")]])])]] none =
      [.toolCallStart ⟨.vstr "call_1", .vstr "search",
          .vdict [("q", .vstr "x")], .vstr "agent"⟩,
       .toolCallEnd (.vstr "call_1") (.vstr "search") (.vstr "Error: rate limited")
          "error" (some "Error: rate limited") true,
       .complete] := by
  refine ⟨?_, ?_, ?_, ?_, by rfl⟩
  · intro m
    unfold detectToolError detectErrorSpec statusErrorCond dictErrorCond strErrorCond
    by_cases hst : valEqStr (getattrD m "status" .vnone) "error"
    · simp [hst]
    · rcases hc : getattrD m "content" .vnone with _ | _ | _ | s | _ | _ | d | _ <;>
        simp [hst, hc] <;> (try (split <;> simp_all))
  · intro m hst
    simp [detectToolError, statusErrorCond] at hst ⊢
    simp [hst]
  · intro m d hst hc hd
    simp only [statusErrorCond] at hst
    simp [detectToolError, hst, hc, hd]
  · intro m s hst hc hp
    simp only [statusErrorCond] at hst
    simp [detectToolError, hst, hc, hp]

/-- Witness for C7: the string-prefix branch at the rate-limited text. -/
theorem claim_C7_witness :
    detectToolError (.vobj "ToolMessage" [("content", .vstr "Error: rate limited")]) =
      (true, some "Error: rate limited") :=
  claim_C7.2.2.2.1 (.vobj "ToolMessage" [("content", .vstr "Error: rate limited")])
    "Error: rate limited" (by decide) rfl (by decide)

/-- A wrapped interrupt object whose value dict carries the given
action requests and review configs. -/
def mkInterruptWrapper (pr : List Val × List Val) : Val :=
  .vobj "Interrupt" [("value", .vdict
    [("action_requests", .vlist pr.1), ("review_configs", .vlist pr.2)])]

/-- Aggregating over wrapped interrupt objects concatenates every
per-wrapper list onto the accumulators. -/
theorem extendAll_mkInterruptWrapper (pairs : List (List Val × List Val)) :
    ∀ accA accC, extendAll (pairs.map mkInterruptWrapper) accA accC =
      .ok (.vlist (accA ++ (pairs.map Prod.fst).flatten),
           .vlist (accC ++ (pairs.map Prod.snd).flatten)) := by
  induction pairs with
  | nil => simp [extendAll]
  | cons pr rest ih =>
    intro accA accC
    simp only [List.map_cons, extendAll, extractFromInterruptObj,
      mkInterruptWrapper, hasattr, getattrD, dictGetD, dictHasKey,
      Val.isDict, pyExtend, pyIter]
    simp [lookupStr, ih, List.append_assoc]

/-- C6: interrupt tuples of more than one wrapped object aggregate
action requests and review configs across all wrappers (union, not
replace), each serialized action reads tool before falling back to
name, and a missing tool_call_id falls back to the synthesized call_
string built from the action position. -/
theorem claim_C6 :
    (∀ pairs : List (List Val × List Val), pairs ≠ [] →
      processInterrupt (.vtuple (pairs.map mkInterruptWrapper)) =
        .ok (((pairs.map Prod.fst).flatten).enum.map
               (fun p => serializeActionRequest p.2 p.1),
             ((pairs.map Prod.snd).flatten).map serializeReviewConfig)) ∧
    (∀ (t : Val) (rest : List (String × Val)) (i : Nat), t.pyTruthy = true →
      ∃ cid args desc,
        serializeActionRequest (.vdict (("tool", t) :: rest)) i =
          .vdict [("tool", t), ("tool_call_id", cid), ("args", args),
                  ("description", desc)]) ∧
    (∀ (nm : String) (args : Val) (i : Nat),
      serializeActionRequest (.vdict [("name", .vstr nm), ("args", args)]) i =
        .vdict [("tool", .vstr nm),
                ("tool_call_id", .vstr ("call_" ++ toString i)),
                ("args", args), ("description", .vnone)]) ∧
    (∀ (nm : String) (args : Val) (i : Nat),
      serializeActionRequest (.vobj "ActionRequest"
          [("name", .vstr nm), ("args", args)]) i =
        .vdict [("tool", .vstr nm),
                ("tool_call_id", .vstr ("call_" ++ toString i)),
                ("args", args), ("description", .vnone)]) := by
  refine ⟨?_, ?_, ?_, ?_⟩
  · intro pairs hne
    match pairs with
    | pr :: rest =>
      simp only [processInterrupt, List.map_cons, parseInterruptValue]
      rw [show hasattr (mkInterruptWrapper pr) "value" = true from rfl]
      simp only [if_true]
      rw [show (mkInterruptWrapper pr :: rest.map mkInterruptWrapper) =
            ((pr :: rest).map mkInterruptWrapper) from rfl]
      rw [extendAll_mkInterruptWrapper (pr :: rest) [] []]
      simp [pyIter]
  · intro t rest i ht
    exact ⟨dictGetD (("tool", t) :: rest) "tool_call_id" (Val.vstr ("call_" ++ toString i)),
           dictGetD (("tool", t) :: rest) "args" (Val.vdict []),
           dictGetD (("tool", t) :: rest) "description" Val.vnone,
           by simp [serializeActionRequest, dictGetD, lookupStr, ht]⟩
  · intro nm args i
    simp [serializeActionRequest, dictGetD, lookupStr, Val.pyTruthy]
  · intro nm args i
    simp [serializeActionRequest, getattrD, dictGetD, lookupStr, Val.pyTruthy]

/-- Two wrappers holding one action request each. -/
def twoWrapperPairs : List (List Val × List Val) :=
  [([.vdict [("name", .vstr "a1")]], []), ([.vdict [("name", .vstr "a2")]], [])]

/-- Witness for C6: two wrappers with one action each aggregate to an
action list of length two with positional fallback ids. -/
theorem claim_C6_witness :
    processInterrupt (.vtuple (twoWrapperPairs.map mkInterruptWrapper)) =
      .ok (((twoWrapperPairs.map Prod.fst).flatten).enum.map
             (fun p => serializeActionRequest p.2 p.1),
           ((twoWrapperPairs.map Prod.snd).flatten).map serializeReviewConfig) :=
  claim_C6.1 twoWrapperPairs (List.cons_ne_nil _ _)

/-- The popped binding exists exactly when the map holds the key. -/
theorem pendingPopGo_isSome (k : Val) :
    ∀ p : Pending, (pendingPopGo k p).1.isSome = pendingHasKey p k := by
  intro p
  induction p with
  | nil => simp [pendingPopGo, pendingHasKey]
  | cons kv rest ih =>
    by_cases he : pyEq kv.1 k
    · simp [pendingPopGo, pendingHasKey, he]
    · simp only [pendingPopGo, he, if_false, Bool.false_eq_true]
      rw [ih]
      simp [pendingHasKey, he]

/-- A ToolMessage with the given name, call id and content. -/
def mkToolMessage (nm cid : String) (content : Val) : Val :=
  .vobj "ToolMessage" [("name", .vstr nm), ("tool_call_id", .vstr cid),
                       ("content", content)]

/-- The updates chunk carrying a single message under one node. -/
def mkNodeChunk (node : String) (message : Val) : Val :=
  .vdict [(node, .vdict [("messages", .vlist [message])])]

/-- C2 counterexample: with lifecycle tracking on, a tool message whose
call id was never started still yields a ToolCallEndEvent (with a null
duration), while no ToolCallStartEvent appears anywhere in the run, so
an end event for an unseen id is not dropped. -/
theorem claim_C2_counterexample :
    streamParse ⟨.updates, true, [], false, []⟩
        [mkNodeChunk "tools" (mkToolMessage "search" "call_9" (.vstr "ok"))] none =
      [.toolCallEnd (.vstr "call_9") (.vstr "search") (.vstr "ok") "success" none false,
       .complete] ∧
    (streamParse ⟨.updates, true, [], false, []⟩
        [mkNodeChunk "tools" (mkToolMessage "search" "call_9" (.vstr "ok"))] none).filter
      Event.isToolStart = [] ∧
    (streamParse ⟨.updates, true, [], false, []⟩
        [mkNodeChunk "tools" (mkToolMessage "search" "call_9" (.vstr "ok"))] none).filter
      Event.isToolEnd ≠ [] :=
  ⟨rfl, rfl, fun h => List.noConfusion h⟩

/-- C2 amended: when lifecycle tracking is on and the tool is not
skipped, a tool message with a non-empty tool_call_id always yields
exactly one ToolCallEndEvent, whether or not a matching start was seen;
a previously started (and not yet closed) id only determines whether
duration_ms is present, and the end event is emitted either way rather
than dropped. -/
theorem claim_C2 (cfg : UpdCfg) (p : Pending) (nm cid : String) (content : Val)
    (htrack : cfg.trackToolLifecycle = true)
    (hskip : cfg.skipTools.contains nm = false)
    (hnm : nm ≠ "") (hcid : cid ≠ "") :
    (processToolMessage cfg p (mkToolMessage nm cid content)).events.filter
        Event.isToolEnd =
      [.toolCallEnd (.vstr cid) (.vstr nm) content
        (if (detectToolError (mkToolMessage nm cid content)).1 then "error"
         else "success")
        (detectToolError (mkToolMessage nm cid content)).2
        (pendingHasKey p (.vstr cid))] ∧
    (processToolMessage cfg p (mkToolMessage nm cid content)).exc = none := by
  have hgetName : getattrD (mkToolMessage nm cid content) "name" .vnone = .vstr nm := by
    simp [mkToolMessage, getattrD, dictGetD, lookupStr]
  have hgetCid : getattrD (mkToolMessage nm cid content) "tool_call_id" .vnone =
      .vstr cid := by
    simp [mkToolMessage, getattrD, dictGetD, lookupStr]
  have hgetC : getattrD (mkToolMessage nm cid content) "content" .vnone = content := by
    simp [mkToolMessage, getattrD, dictGetD, lookupStr]
  have hgetA : getattrD (mkToolMessage nm cid content) "artifact" .vnone = .vnone := by
    simp [mkToolMessage, getattrD, dictGetD, lookupStr]
  have hmem : memStrSet (Val.vstr nm) cfg.skipTools = .ok false := by
    simp only [memStrSet, pyHashable, if_true]
    simpa using hskip
  have hpop : pendingPop p (Val.vstr cid) = .ok (pendingPopGo (Val.vstr cid) p) := by
    simp [pendingPop, pyHashable]
  simp only [processToolMessage, hgetName, hgetCid, hgetC, hgetA, hmem, htrack,
    Val.pyTruthy, bne_iff_ne, ne_eq, hnm, hcid, not_false_eq_true, true_and,
    if_true, hpop]
  rcases hlk : lookupExtr cfg.extractors (Val.vstr nm) with _ | ext
  · simp [hlk, hcid, List.filter, Event.isToolEnd, pendingPopGo_isSome]
  · simp only [hlk]
    rcases hex : ext.extract (if (Val.vnone).isNone = true then content else .vnone)
      with _ | v
    · simp [hex, hcid, List.filter, Event.isToolEnd, pendingPopGo_isSome]
    · rcases v with _ | b | n | s | xs | xs | es | cls
      all_goals simp [hex, hcid, List.filter, Event.isToolEnd, pendingPopGo_isSome]

/-- Witness for C2 at a concrete unseen call id. -/
theorem claim_C2_witness :
    (processToolMessage ⟨[], [], true, false, false⟩ []
        (mkToolMessage "search" "call_9" (.vstr "ok"))).events.filter Event.isToolEnd =
      [.toolCallEnd (.vstr "call_9") (.vstr "search") (.vstr "ok")
        (if (detectToolError (mkToolMessage "search" "call_9" (.vstr "ok"))).1
         then "error" else "success")
        (detectToolError (mkToolMessage "search" "call_9" (.vstr "ok"))).2
        (pendingHasKey [] (.vstr "call_9"))] ∧
    (processToolMessage ⟨[], [], true, false, false⟩ []
        (mkToolMessage "search" "call_9" (.vstr "ok"))).exc = none :=
  claim_C2 ⟨[], [], true, false, false⟩ [] "search" "call_9" (.vstr "ok")
    rfl rfl (by decide) (by decide)

/-- Generic all-events lemma for the parse loop. -/
theorem parseLoop_all (step : Pending → Val → StepOut) (P : Event → Prop)
    (hstep : ∀ p c, ∀ e ∈ (step p c).events, P e)
    (hcomplete : P .complete) (herror : ∀ ex, P (mkErrorEvent ex)) :
    ∀ p chunks pullExc, ∀ e ∈ parseLoop step p chunks pullExc, P e := by
  intro p chunks pullExc
  induction chunks generalizing p with
  | nil =>
    intro e he
    cases pullExc <;> simp only [parseLoop] at he <;>
      obtain rfl := List.mem_singleton.mp he
    · exact hcomplete
    · exact herror _
  | cons c rest ih =>
    intro e he
    simp only [parseLoop] at he
    split at he
    · obtain h | h := List.mem_append.mp he
      · exact hstep p c e h
      · obtain rfl := List.mem_singleton.mp h
        exact herror _
    · obtain h | h := List.mem_append.mp he
      · exact hstep p c e h
      · exact ih _ e h

/-- In the emit branch of the lifecycle loop, a name that passed the
skip check cannot be a skipped name. -/
theorem valEqStr_of_memStrSet_false {v : Val} {skip : List String} {n : String}
    (hn : skip.contains n = true)
    (h : memStrSet v skip = .ok false) : valEqStr v n = false := by
  rcases v with _ | b | i | s | xs | xs | es | cls <;> simp [valEqStr]
  intro heq
  subst heq
  simp only [memStrSet, pyHashable, if_true] at h
  obtain h2 := Except.ok.inj h
  simp at hn
  exact absurd hn (by simpa using h2)

/-- With a skipped name n other than the unknown placeholder, no
tool-message event bears n. -/
theorem nb_processToolMessage (cfg : UpdCfg) {n : String}
    (hn : cfg.skipTools.contains n = true) (hn2 : n ≠ "unknown")
    (p : Pending) (m : Val) :
    ∀ e ∈ (processToolMessage cfg p m).events, e.bearsToolName n = false := by
  have hunk : valEqStr (Val.vstr "unknown") n = false := by
    simp only [valEqStr, beq_eq_false_iff_ne, ne_eq]
    exact Ne.symm hn2
  intro e he
  simp only [processToolMessage] at he
  repeat' split at he
  all_goals (try exact absurd he (List.not_mem_nil _))
  all_goals
    simp only [List.nil_append, List.mem_append, List.mem_singleton,
      List.not_mem_nil, false_or, or_false] at he
  all_goals (
    rcases he with rfl | rfl <;>
      simp only [Event.bearsToolName] <;>
      first
        | exact valEqStr_of_memStrSet_false hn (by assumption)
        | exact hunk)

/-- The lifecycle loop never yields an event bearing a skipped name. -/
theorem nb_processToolCallLoop (cfg : UpdCfg) {n : String}
    (hn : cfg.skipTools.contains n = true) (node : String) :
    ∀ p tcs, ∀ e ∈ (processToolCallLoop cfg node p tcs).events,
      e.bearsToolName n = false := by
  intro p tcs
  induction tcs generalizing p with
  | nil => simp [processToolCallLoop]
  | cons tc rest ih =>
    intro e he
    simp only [processToolCallLoop] at he
    repeat' split at he
    all_goals (try exact absurd he (List.not_mem_nil _))
    all_goals (try exact ih _ e he)
    all_goals {
      obtain rfl | h := List.mem_cons.mp he
      · simp only [Event.bearsToolName]
        exact valEqStr_of_memStrSet_false hn (by assumption)
      · exact ih _ e h
    }

/-- The AI-message processor never yields an event bearing a skipped
name (content and usage events bear no tool name at all). -/
theorem nb_processAiMessage (cfg : UpdCfg) {n : String}
    (hn : cfg.skipTools.contains n = true)
    (p : Pending) (node : String) (m : Val) :
    ∀ e ∈ (processAiMessage cfg p node m).events, e.bearsToolName n = false := by
  intro e he
  unfold processAiMessage at he
  split at he
  · exact absurd he (List.not_mem_nil _)
  case h_2 toolCalls heq =>
    obtain h | h := mem_chain_events _ _ _ he
    · split at h
      · exact nb_processToolCallLoop cfg hn node p toolCalls e h
      · exact absurd h (List.not_mem_nil _)
    · obtain h2 | h2 := mem_chain_events _ _ _ h
      · split at h2
        · split at h2
          · exact absurd h2 (List.not_mem_nil _)
          case h_2 evs heq2 =>
            obtain ⟨c, r, nn, rfl⟩ := aiContentEvents_shape node m toolCalls evs heq2 e h2
            rfl
        · exact absurd h2 (List.not_mem_nil _)
      · split at h2
        · exact absurd h2 (List.not_mem_nil _)
        case h_2 evs heq2 =>
          obtain ⟨it, ot, tt, nn, rfl⟩ := aiUsageEvents_shape node m evs heq2 e h2
          rfl

/-- The human-message processor yields only ContentEvents. -/
theorem processHumanMessage_shape (cfg : UpdCfg) (node : String) (m : Val)
    (evs : List Event) (h : processHumanMessage cfg node m = .ok evs) :
    ∀ e ∈ evs, ∃ c r nn, e = .content c r nn := by
  intro e he
  simp only [processHumanMessage] at h
  repeat' split at h
  all_goals (try exact Except.noConfusion h)
  all_goals (injection h with h2; subst h2)
  all_goals (first
    | exact absurd he (List.not_mem_nil _)
    | exact ⟨_, _, _, mem_contentEventList he⟩)

/-- The message dispatch loop never yields an event bearing a skipped
name. -/
theorem nb_processMessageLoop (cfg : UpdCfg) {n : String}
    (hn : cfg.skipTools.contains n = true) (hn2 : n ≠ "unknown") (node : String) :
    ∀ p ms, ∀ e ∈ (processMessageLoop cfg node p ms).events,
      e.bearsToolName n = false := by
  intro p ms
  induction ms generalizing p with
  | nil => simp [processMessageLoop]
  | cons m rest ih =>
    intro e he
    simp only [processMessageLoop] at he
    obtain h | h := mem_chain_events _ _ _ he
    · split at h
      · exact nb_processToolMessage cfg hn hn2 p m e h
      · exact nb_processAiMessage cfg hn p node m e h
      · exact nb_processAiMessage cfg hn p node m e h
      · split at h
        · exact absurd h (List.not_mem_nil _)
        case h_2 evs heq =>
          obtain ⟨c, r, nn, rfl⟩ := processHumanMessage_shape cfg node m evs heq e h
          rfl
      · exact absurd h (List.not_mem_nil _)
    · exact ih _ e h

/-- A node update never yields an event bearing a skipped name. -/
theorem nb_processNodeUpdate (cfg : UpdCfg) {n : String}
    (hn : cfg.skipTools.contains n = true) (hn2 : n ≠ "unknown")
    (p : Pending) (node : String) (sd : Val) :
    ∀ e ∈ (processNodeUpdate cfg p node sd).events, e.bearsToolName n = false := by
  intro e he
  simp only [processNodeUpdate] at he
  split at he
  case h_1 d =>
    obtain h | h := mem_chain_events _ _ _ he
    · split at h
      · simp only [processMessages] at h
        split at h
        · exact absurd h (List.not_mem_nil _)
        · exact nb_processMessageLoop cfg hn hn2 node p _ e h
      · exact absurd h (List.not_mem_nil _)
    · split at h
      · obtain ⟨kv, _, hkv⟩ := List.mem_filterMap.mp h
        split at hkv
        · obtain rfl := Option.some.inj hkv
          rfl
        · exact Option.noConfusion hkv
      · exact absurd h (List.not_mem_nil _)
  · exact absurd he (List.not_mem_nil _)

/-- The node loop never yields an event bearing a skipped name. -/
theorem nb_processNodeLoop (cfg : UpdCfg) {n : String}
    (hn : cfg.skipTools.contains n = true) (hn2 : n ≠ "unknown") :
    ∀ p entries, ∀ e ∈ (processNodeLoop cfg p entries).events,
      e.bearsToolName n = false := by
  intro p entries
  induction entries generalizing p with
  | nil => simp [processNodeLoop]
  | cons kv rest ih =>
    intro e he
    simp only [processNodeLoop] at he
    obtain h | h := mem_chain_events _ _ _ he
    · exact nb_processNodeUpdate cfg hn hn2 p kv.1 kv.2 e h
    · exact ih _ e h

/-- UpdatesHandler.process_chunk never yields an event bearing a
skipped name. -/
theorem nb_updProcessChunk (cfg : UpdCfg) {n : String}
    (hn : cfg.skipTools.contains n = true) (hn2 : n ≠ "unknown")
    (p : Pending) (chunk : Val) :
    ∀ e ∈ (updProcessChunk cfg p chunk).events, e.bearsToolName n = false := by
  intro e he
  simp only [updProcessChunk] at he
  split at he
  case h_1 d =>
    split at he
    · split at he
      · exact absurd he (List.not_mem_nil _)
      · obtain rfl := List.mem_singleton.mp he
        rfl
    · exact nb_processNodeLoop cfg hn hn2 p d e he
  · exact absurd he (List.not_mem_nil _)

/-- A multi-mode step never yields an event bearing a skipped name. -/
theorem nb_multiStep (c : ParserCfg) {n : String}
    (hn : c.skipTools.contains n = true) (hn2 : n ≠ "unknown")
    (p : Pending) (chunk : Val) :
    ∀ e ∈ (multiStep c p chunk).events, e.bearsToolName n = false := by
  intro e he
  simp only [multiStep] at he
  repeat' split at he
  all_goals (try exact absurd he (List.not_mem_nil _))
  · exact nb_updProcessChunk _ hn hn2 p _ e he
  · obtain ⟨c1, r, nn, rfl⟩ := msgsProcessChunk_shape _ e he
    rfl

/-- C3 amended: for every skipped tool name other than the placeholder
string unknown, no event of the whole parse run bears that name (no
start, end or extraction event), whatever the stream.  The placeholder
exception is forced by the counterexample: a tool message with a falsy
name yields an end event named unknown even when unknown is skipped. -/
theorem claim_C3 (c : ParserCfg) (chunks : List Val) (pullExc : Option PyExc)
    (n : String) (hn : c.skipTools.contains n = true) (hn2 : n ≠ "unknown") :
    ∀ e ∈ streamParse c chunks pullExc, e.bearsToolName n = false := by
  have hupd : ∀ p chunk, ∀ e ∈ (updStep c p chunk).events, e.bearsToolName n = false :=
    fun p chunk => nb_updProcessChunk (updCfgOf c false) hn hn2 p chunk
  have hmsg : ∀ p chunk, ∀ e ∈ (msgStep p chunk).events, e.bearsToolName n = false := by
    intro p chunk e he
    obtain ⟨c1, r, nn, rfl⟩ := msgsProcessChunk_shape chunk e he
    rfl
  have hmul : ∀ p chunk, ∀ e ∈ (multiStep c p chunk).events, e.bearsToolName n = false :=
    fun p chunk => nb_multiStep c hn hn2 p chunk
  cases hm : c.mode
  case updates =>
    simp only [streamParse, hm]
    exact parseLoop_all _ _ hupd rfl (fun ex => rfl) [] chunks pullExc
  case messages =>
    simp only [streamParse, hm]
    exact parseLoop_all _ _ hmsg rfl (fun ex => rfl) [] chunks pullExc
  case multi =>
    simp only [streamParse, hm]
    exact parseLoop_all _ _ hmul rfl (fun ex => rfl) [] chunks pullExc
  case auto =>
    simp only [streamParse, hm]
    match chunks with
    | [] => exact parseLoop_all _ _ hupd rfl (fun ex => rfl) [] [] pullExc
    | first :: rest =>
      by_cases hmm : isMultiMode first
      · simp only [hmm, if_true]
        exact parseLoop_all _ _ hmul rfl (fun ex => rfl) [] (first :: rest) pullExc
      · simp only [hmm, if_false, Bool.false_eq_true]
        exact parseLoop_all _ _ hupd rfl (fun ex => rfl) [] (first :: rest) pullExc

/-- C3 counterexample: with the name unknown in the skip set, a tool
message carrying no name still produces a ToolCallEndEvent whose name
field is the placeholder unknown, an event bearing a skipped name. -/
theorem claim_C3_counterexample :
    streamParse ⟨.updates, true, ["unknown"], false, []⟩
        [mkNodeChunk "tools" (.vobj "ToolMessage"
          [("tool_call_id", .vstr "call_7"), ("content", .vstr "ok")])] none =
      [.toolCallEnd (.vstr "call_7") (.vstr "unknown") (.vstr "ok") "success" none false,
       .complete] ∧
    (streamParse ⟨.updates, true, ["unknown"], false, []⟩
        [mkNodeChunk "tools" (.vobj "ToolMessage"
          [("tool_call_id", .vstr "call_7"), ("content", .vstr "ok")])] none).any
      (fun e => e.bearsToolName "unknown") = true :=
  ⟨rfl, rfl⟩

/-- Witness for C3 at a concrete skipped tool: the run over a skipped
tool message yields only the terminal event, whose membership
discharges the quantifier. -/
theorem claim_C3_witness :
    Event.bearsToolName .complete "search" = false :=
  claim_C3 ⟨.updates, true, ["search"], false, []⟩
    [mkNodeChunk "tools" (mkToolMessage "search" "call_1" (.vstr "ok"))] none
    "search" (by decide) (by decide) .complete (List.Mem.head _)

/-- C5 amended: auto mode replays the stream through the handler the
peeked first chunk selects, so it coincides with explicit dual mode
when the first chunk is a mode envelope and with explicit updates mode
otherwise (also on the empty stream).  Detection never selects bare
messages mode, which is what the counterexample exhibits. -/
theorem claim_C5 (track : Bool) (skip : List String) (incl : Bool)
    (exts : List (String × Extr)) (chunks : List Val) (pullExc : Option PyExc) :
    (∀ first rest, chunks = first :: rest → isMultiMode first = true →
      streamParse ⟨.auto, track, skip, incl, exts⟩ chunks pullExc =
        streamParse ⟨.multi, track, skip, incl, exts⟩ chunks pullExc) ∧
    (∀ first rest, chunks = first :: rest → isMultiMode first = false →
      streamParse ⟨.auto, track, skip, incl, exts⟩ chunks pullExc =
        streamParse ⟨.updates, track, skip, incl, exts⟩ chunks pullExc) ∧
    (chunks = [] →
      streamParse ⟨.auto, track, skip, incl, exts⟩ chunks pullExc =
        streamParse ⟨.updates, track, skip, incl, exts⟩ chunks pullExc) := by
  refine ⟨?_, ?_, ?_⟩
  · intro first rest hc hmm
    subst hc
    simp only [streamParse, hmm, if_true]
    rfl
  · intro first rest hc hmm
    subst hc
    simp only [streamParse, hmm, if_false, Bool.false_eq_true]
    rfl
  · intro hc
    subst hc
    simp only [streamParse]
    rfl

/-- C5 counterexample: a stream matching bare messages mode parses
differently under auto (which falls back to updates mode and emits
nothing) than under explicit messages mode. -/
theorem claim_C5_counterexample :
    streamParse ⟨.messages, true, [], false, []⟩
        [.vtuple [.vobj "AIMessageChunk" [("content", .vstr "Hi")], .vdict []]] none =
      [.content "Hi" "assistant" .vnone, .complete] ∧
    streamParse ⟨.auto, true, [], false, []⟩
        [.vtuple [.vobj "AIMessageChunk" [("content", .vstr "Hi")], .vdict []]] none =
      [.complete] ∧
    streamParse ⟨.messages, true, [], false, []⟩
        [.vtuple [.vobj "AIMessageChunk" [("content", .vstr "Hi")], .vdict []]] none ≠
      streamParse ⟨.auto, true, [], false, []⟩
        [.vtuple [.vobj "AIMessageChunk" [("content", .vstr "Hi")], .vdict []]] none := by
  refine ⟨rfl, rfl, fun h => ?_⟩
  rw [show streamParse ⟨.messages, true, [], false, []⟩
        [.vtuple [.vobj "AIMessageChunk" [("content", .vstr "Hi")], .vdict []]] none =
      [.content "Hi" "assistant" .vnone, .complete] from rfl,
      show streamParse ⟨.auto, true, [], false, []⟩
        [.vtuple [.vobj "AIMessageChunk" [("content", .vstr "Hi")], .vdict []]] none =
      [.complete] from rfl] at h
  simp at h

/-- Witness for C5 at a concrete envelope stream and a concrete plain
stream. -/
theorem claim_C5_witness :
    streamParse ⟨.auto, true, [], false, []⟩
        [.vtuple [.vstr "updates", .vdict []]] none =
      streamParse ⟨.multi, true, [], false, []⟩
        [.vtuple [.vstr "updates", .vdict []]] none ∧
    streamParse ⟨.auto, true, [], false, []⟩ [.vdict []] none =
      streamParse ⟨.updates, true, [], false, []⟩ [.vdict []] none :=
  ⟨(claim_C5 true [] false [] [.vtuple [.vstr "updates", .vdict []]] none).1
      _ _ rfl rfl,
   (claim_C5 true [] false [] [.vdict []] none).2.1 _ _ rfl rfl⟩
